import Mathlib

/-!
Verification development for `senza/components/elastic_load_balancer.py`.

The Python module is shallowly embedded: its pure helpers become Lean
functions, the mutable template document becomes explicit state passing over
an association list of resources, and the external cloud stores (ACM, IAM,
Route53, the confirmation prompt, security-group resolution) — which are
outside this repository and specified only at their interface — become
record-of-functions parameters (`CertStores`, `DnsEnv`, `Env`).
-/

set_option maxRecDepth 2048

namespace Senza

/-- Python-like values, as they occur in the component's configuration mapping
and in the emitted resource fragments.  Python dicts become association lists
in insertion order; `vnone` is Python `None`. -/
inductive Val where
  | vnone : Val
  | str : String → Val
  | num : Nat → Val
  | bool : Bool → Val
  | arr : List Val → Val
  | obj : List (String × Val) → Val
deriving Repr

/-- Lookup in an association list (Python `d.get(key)` / `d[key]`). -/
def lookupAssoc : List (String × α) → String → Option α
  | [], _ => none
  | (k, v) :: rest, key => if k = key then some v else lookupAssoc rest key

/-- Python `d[key] = v` on an insertion-ordered dict: overwrite in place when
the key exists, append at the end otherwise. -/
def insertAssoc : List (String × α) → String → α → List (String × α)
  | [], key, v => [(key, v)]
  | (k, w) :: rest, key, v =>
    if k = key then (key, v) :: rest else (k, w) :: insertAssoc rest key v

/-- Python `del d[key]`: remove the (unique, for a dict) entry with this key. -/
def eraseAssoc : List (String × α) → String → List (String × α)
  | [], _ => []
  | (k, w) :: rest, key => if k = key then rest else (k, w) :: eraseAssoc rest key

/-- Python truthiness of a value. -/
def truthy : Val → Bool
  | .vnone => false
  | .str s => decide (s ≠ "")
  | .num n => decide (n ≠ 0)
  | .bool b => b
  | .arr l => !l.isEmpty
  | .obj l => !l.isEmpty

/-- Python `str()` / `format` rendering of a value.  The component only ever
formats strings and numbers; the rendering of composite values is a placeholder
(no claim depends on it). -/
def pyStr : Val → String
  | .vnone => "None"
  | .str s => s
  | .num n => toString n
  | .bool true => "True"
  | .bool false => "False"
  | .arr _ => "<list>"
  | .obj _ => "<dict>"

/-- A certificate from one of the two stores: its ARN together with the
store-specific ordering key that Python's `sorted` compares (`manaus`
certificate objects are ordered by their store's natural "freshness" order,
abstracted here as a `Nat` key). -/
structure Cert where
  arn : String
  key : Nat
deriving Repr, DecidableEq

/-- Ascending comparison used by Python `sorted(certs)`. -/
def keyLE (a b : Cert) : Prop := a.key ≤ b.key

/-- Descending comparison used by Python `sorted(certs, reverse=True)`. -/
def keyGE (a b : Cert) : Prop := b.key ≤ a.key

instance : DecidableRel keyLE := fun a b => inferInstanceAs (Decidable (a.key ≤ b.key))
instance : DecidableRel keyGE := fun a b => inferInstanceAs (Decidable (b.key ≤ a.key))
instance : IsTotal Cert keyLE := ⟨fun a b => Nat.le_total a.key b.key⟩
instance : IsTrans Cert keyLE := ⟨fun _ _ _ h1 h2 => Nat.le_trans h1 h2⟩
instance : IsTotal Cert keyGE := ⟨fun a b => Nat.le_total b.key a.key⟩
instance : IsTrans Cert keyGE := ⟨fun _ _ _ h1 h2 => Nat.le_trans h2 h1⟩

/-- Python `sorted(certs)`: stable insertion sort, ascending by ordering key. -/
def sortCertsAsc (l : List Cert) : List Cert := List.insertionSort keyLE l

/-- Python `sorted(certs, reverse=True)`: stable, descending by ordering key. -/
def sortCertsDesc (l : List Cert) : List Cert := List.insertionSort keyGE l

/-- Interface of the two certificate stores (`manaus.acm`, `manaus.iam`),
which live outside this repository.  Shape tests and lookups are oracles;
searches return the raw (unsorted) candidate lists the stores would return. -/
structure CertStores where
  acmShape : Val → Bool
  iamShape : Val → Bool
  acmGetByArn : String → Val → Except String Unit
  iamGetByName : Val → Except String Cert
  acmGetCerts : String → List Cert
  iamGetCertsPattern : String → List Cert
  iamGetCertsAll : List Cert

/-- Failure modes of the component: `fatal` is `clickclick.fatal_error`,
`storeError` an uncaught store exception, `invalidState` the senza
`InvalidState` exception, `usage` a `click.UsageError`, `keyError` a Python
`KeyError` on the configuration mapping. -/
inductive Err where
  | fatal (msg : String)
  | storeError (msg : String)
  | invalidState (msg : String)
  | usage (msg : String)
  | keyError (key : String)
deriving Repr, DecidableEq

/-- Python `str.lower()` (ASCII). -/
def lowerStr (s : String) : String := ⟨s.data.map Char.toLower⟩

/-- Python `str.rstrip('.')`: drop every trailing dot. -/
def rstripDots (s : String) : String := ⟨(s.data.reverse.dropWhile (· = '.')).reverse⟩

/-- Python `str.replace('.', '-')`. -/
def dotsToHyphens (s : String) : String :=
  ⟨s.data.map (fun c => if c = '.' then '-' else c)⟩

/-- IAM name-search pattern built from the zone:
`main_zone.lower().rstrip('.').replace('.', '-')` (line 49). -/
def iamPatternOf (zone : String) : String := dotsToHyphens (rstripDots (lowerStr zone))

/-- Composed domain name searched in ACM:
`'{sub}.{zone}'.format(sub=subdomain, zone=main_zone.rstrip('.'))` (lines 50-51). -/
def composedName (subdomain zone : String) : String :=
  subdomain ++ "." ++ rstripDots zone

/-- ACM candidate list of the domain-based search (lines 52-57): for a truthy
zone, the ACM matches for the composed name sorted descending; for an empty
zone no ACM search happens and the list is empty. -/
def acmCandidates (cs : CertStores) (subdomain zone : String) : List Cert :=
  if zone = "" then [] else sortCertsDesc (cs.acmGetCerts (composedName subdomain zone))

/-- IAM candidate list of the domain-based search (lines 56, 59-63): the
pattern matches sorted ascending (`sorted(...)`, line 59 — note: no
`reverse=True`); when that is empty, every IAM certificate sorted descending
(line 63). -/
def iamCandidates (cs : CertStores) (zone : String) : List Cert :=
  let pat := if zone = "" then "" else iamPatternOf zone
  match sortCertsAsc (cs.iamGetCertsPattern pat) with
  | [] => sortCertsDesc cs.iamGetCertsAll
  | c :: rest => c :: rest

/-- Certificate resolution of `get_listeners` (lines 32-76): the value that
ends up in the listener's `SSLCertificateId`, or the error that aborts.
Following the spec's contract for the external shape tests, they are consulted
only for a present explicit identifier (the real tests map `None` to `False`). -/
def resolveCert (cs : CertStores) (region : String) (subdomain : String)
    (mainZone : Option String) (sslCertCfg : Val) : Except Err Val :=
  match sslCertCfg with
  | .vnone =>
    match mainZone with
    | none => .ok .vnone
    | some zone =>
      match acmCandidates cs subdomain zone ++ iamCandidates cs zone with
      | c :: _ => .ok (.str c.arn)
      | [] =>
        if zone = "" then .error (.fatal "Could not find any SSL certificate")
        else
          .error (.fatal ("Could not find any matching SSL certificate for \"" ++
            composedName subdomain zone ++ "\""))
  | v =>
    if cs.acmShape v then
      match cs.acmGetByArn region v with
      | .error m => .error (.fatal m)
      | .ok _ => .ok v
    else if cs.iamShape v then .ok v
    else
      match cs.iamGetByName v with
      | .error m => .error (.storeError m)
      | .ok cert => .ok (.str cert.arn)

/-- The single default listener dict of lines 77-85. -/
def mkListener (sslVal : Val) (portVal : Val) : Val :=
  .obj [("PolicyNames", .arr []), ("SSLCertificateId", sslVal),
        ("Protocol", .str "HTTPS"), ("InstancePort", portVal),
        ("LoadBalancerPort", .num 443)]

/-- `get_listeners` (lines 30-85): resolve the certificate, then build the one
HTTPS listener whose instance port is `configuration["HTTPPort"]` (a `KeyError`
when absent). -/
def get_listeners (cs : CertStores) (region : String) (subdomain : String)
    (mainZone : Option String) (configuration : List (String × Val)) :
    Except Err (List Val) :=
  let sslCfg := (lookupAssoc configuration "SSLCertificateId").getD .vnone
  match resolveCert cs region subdomain mainZone sslCfg with
  | .error e => .error e
  | .ok sslVal =>
    match lookupAssoc configuration "HTTPPort" with
    | none => .error (.keyError "HTTPPort")
    | some port => .ok [mkListener sslVal port]

/-- Truncation of the balancer name (lines 17-27).  `pySlice s stop` is Python
`s[:stop]`, including the negative-index semantics. -/
def pySlice (s : String) (stop : Int) : String :=
  if 0 ≤ stop then ⟨s.data.take stop.toNat⟩
  else ⟨s.data.take (s.length - (-stop).toNat)⟩

/-- `get_load_balancer_name` (lines 17-27):
`stack_name[:32 - len(stack_version) - 1] + '-' + stack_version`. -/
def get_load_balancer_name (stack_name stack_version : String) : String :=
  pySlice stack_name (32 - (stack_version.length : Int) - 1) ++ "-" ++ stack_version

/-- A Route53 hosted zone, identified by its name (the component only reads
`hosted_zone.name` and uses the zone as a grouping key). -/
structure HostedZone where
  name : String
deriving Repr, DecidableEq

/-- A DNS record as the component sees it: its type, its owning hosted zone,
and opaque identifying payload (name/data) that `to_alias` may transform. -/
structure Record where
  rtype : String
  hostedZone : HostedZone
  rname : String
  rdata : String
deriving Repr, DecidableEq

/-- A mutating call issued to the DNS store (`hosted_zone.delete` /
`hosted_zone.upsert`, lines 117-123), in issue order. -/
inductive Action where
  | deleteRecords (zone : HostedZone) (records : List Record) (comment : String)
  | upsertRecords (zone : HostedZone) (records : List Record) (comment : String)
deriving Repr, DecidableEq

/-- Interface of the Route53 store and the interactive prompt, both external:
`getRecords name` lists the records matching a name, `toAlias` is
`record.to_alias()`, and `confirm domainName hostedZoneName n` is the
operator's answer to the conversion prompt for `n` records. -/
structure DnsEnv where
  getRecords : String → List Record
  toAlias : Record → Record
  confirm : String → String → Nat → Bool

/-- Full external environment of the component. -/
structure Env where
  certs : CertStores
  region : String
  dns : DnsEnv
  resolveSecurityGroups : Val → String → Val

/-- One step of the `defaultdict` accumulation of lines 103-108: append a
non-`A` record (and its alias form) to its hosted zone's group, creating the
group at the end on first appearance. -/
def addConverted (dns : DnsEnv) (acc : List (HostedZone × List Record × List Record))
    (r : Record) : List (HostedZone × List Record × List Record) :=
  match acc with
  | [] => [(r.hostedZone, [r], [dns.toAlias r])]
  | (hz, gd, gu) :: rest =>
    if hz = r.hostedZone then (hz, gd ++ [r], gu ++ [dns.toAlias r]) :: rest
    else (hz, gd, gu) :: addConverted dns rest r

/-- The conversion plan of lines 103-108: for every hosted zone owning a
record whose type is not `A`, the records to delete and the alias records to
upsert, grouped in first-appearance order. -/
def convertedRecords (dns : DnsEnv) (records : List Record) :
    List (HostedZone × List Record × List Record) :=
  records.foldl (fun acc r => if r.rtype = "A" then acc else addConverted dns acc r) []

/-- The confirmation/mutation loop of lines 110-126: for each hosted zone of
the plan, ask the operator; on yes issue the delete call then the upsert call,
on no raise `InvalidState`.  (Message as in the source, apostrophe elided.) -/
def processZones (dns : DnsEnv) (domainName : String) (acts : List Action) :
    List (HostedZone × List Record × List Record) → List Action × Option Err
  | [] => (acts, none)
  | (hz, gd, gu) :: rest =>
    if dns.confirm domainName hz.name gu.length then
      processZones dns domainName
        (acts ++ [.deleteRecords hz gd "Records that will be converted to Alias",
                  .upsertRecords hz gu "Converted non alias records"]) rest
    else (acts, some (.invalidState "Cant create domains because there are non A Type records."))

/-- Mutable state threaded through the `Domains` loop: the `Resources` mapping
of the output document, the DNS calls issued so far, and the
`subdomain`/`main_zone` variables of lines 96-97 and 141-142. -/
structure LoopState where
  doc : List (String × Val)
  acts : List Action
  subdomain : String
  mainZone : Option String

/-- A Route53 record-set resource value. -/
def recordSetRes (props : List (String × Val)) : Val :=
  Val.obj [("Type", .str "AWS::Route53::RecordSet"), ("Properties", .obj props)]

/-- The record-set properties of lines 128-133. -/
def basePropsFor (lbName domainName zoneStr : String) : List (String × Val) :=
  [("Type", .str "A"), ("Name", .str domainName),
   ("HostedZoneName", .str zoneStr),
   ("AliasTarget", .obj
     [("HostedZoneId", .obj
        [("Fn::GetAtt", .arr [.str lbName, .str "CanonicalHostedZoneNameID"])]),
      ("DNSName", .obj [("Fn::GetAtt", .arr [.str lbName, .str "DNSName"])])])]

/-- The record-set properties with the weighted-routing extras of lines
137-140 added (`Weight = 0`, `SetIdentifier = stackName-stackVersion`). -/
def weightedPropsFor (lbName domainName zoneStr stackName stackVersion : String) :
    List (String × Val) :=
  insertAssoc (insertAssoc (basePropsFor lbName domainName zoneStr) "Weight" (.num 0))
    "SetIdentifier" (.str (stackName ++ "-" ++ stackVersion))

/-- The body of one `Domains` iteration once `Subdomain` and `Zone` decoded:
reconcile DNS for `subStr.zoneStr`, then register the record-set resource
under `name`, with the weighted extras (and the `subdomain`/`main_zone`
update) when the binding type is `weighted`. -/
def processOneDomainCore (dns : DnsEnv) (lbName stackName stackVersion : String)
    (st : LoopState) (name subStr zoneStr : String) (tyOpt : Option Val) :
    LoopState × Option Err :=
  match processZones dns (subStr ++ "." ++ zoneStr) st.acts
      (convertedRecords dns (dns.getRecords (subStr ++ "." ++ zoneStr))) with
  | (acts', some e) => ({ st with acts := acts' }, some e)
  | (acts', none) =>
    match tyOpt with
    | none =>
      ({ st with
         doc := insertAssoc st.doc name
           (recordSetRes (basePropsFor lbName (subStr ++ "." ++ zoneStr) zoneStr)),
         acts := acts' }, some (.keyError "Type"))
    | some tv =>
      if pyStr tv = "weighted" then
        ({ doc := insertAssoc
             (insertAssoc st.doc name
               (recordSetRes (basePropsFor lbName (subStr ++ "." ++ zoneStr) zoneStr)))
             name
             (recordSetRes (weightedPropsFor lbName (subStr ++ "." ++ zoneStr) zoneStr
               stackName stackVersion)),
           acts := acts', subdomain := subStr, mainZone := some zoneStr }, none)
      else
        ({ st with
           doc := insertAssoc st.doc name
             (recordSetRes (basePropsFor lbName (subStr ++ "." ++ zoneStr) zoneStr)),
           acts := acts' }, none)

/-- One iteration of the `Domains` loop (lines 98-142) for the binding
`entryName` with raw field mapping `fields`.  A missing `Subdomain` or `Zone`
is the Python `KeyError` of line 101, a missing `Type` that of line 137. -/
def processOneDomain (dns : DnsEnv) (lbName stackName stackVersion : String)
    (st : LoopState) (entryName : String) (fields : List (String × Val)) :
    LoopState × Option Err :=
  match lookupAssoc fields "Subdomain", lookupAssoc fields "Zone" with
  | some sv0, some zv0 =>
    processOneDomainCore dns lbName stackName stackVersion st (lbName ++ entryName)
      (pyStr sv0) (pyStr zv0) (lookupAssoc fields "Type")
  | none, _ => (st, some (.keyError "Subdomain"))
  | some _, none => (st, some (.keyError "Zone"))

/-- The whole `Domains` loop, stopping at the first error (a raised exception
aborts the remaining bindings). -/
def processDomains (dns : DnsEnv) (lbName stackName stackVersion : String)
    (st : LoopState) : List (String × List (String × Val)) → LoopState × Option Err
  | [] => (st, none)
  | (n, fields) :: rest =>
    match processOneDomain dns lbName stackName stackVersion st n fields with
    | (st', some e) => (st', some e)
    | (st', none) => processDomains dns lbName stackName stackVersion st' rest

/-- Decode `configuration.get('Domains', {})` into its ordered entries; `none`
models the type error Python would raise on a non-mapping value. -/
def domainEntries (cfg : List (String × Val)) :
    Option (List (String × List (String × Val))) :=
  match lookupAssoc cfg "Domains" with
  | none => some []
  | some (.obj entries) =>
    entries.mapM (fun nv => match nv.2 with | .obj fields => some (nv.1, fields) | _ => none)
  | some _ => none

/-- The reserved senza configuration keys (lines 13-14), never copied verbatim
into the resource properties. -/
def SENZA_PROPERTIES : List String :=
  ["Domains", "HealthCheckPath", "HealthCheckPort", "HealthCheckProtocol",
   "HTTPPort", "Name", "SecurityGroups", "SSLCertificateId", "Type"]

/-- The override merge of lines 234-238: every configuration entry whose key is
not reserved is written over the computed properties, in configuration order. -/
def mergeOverrides (props : List (String × Val)) (cfg : List (String × Val)) :
    List (String × Val) :=
  cfg.foldl (fun ps kv => if kv.1 ∈ SENZA_PROPERTIES then ps else insertAssoc ps kv.1 kv.2) props

/-- Listener selection of line 144:
`configuration.get('Listeners') or get_listeners(...)`. -/
def listenersChoice (cs : CertStores) (region : String) (cfg : List (String × Val))
    (subdomain : String) (mainZone : Option String) : Except Err Val :=
  match lookupAssoc cfg "Listeners" with
  | some v =>
    if truthy v then .ok v
    else (get_listeners cs region subdomain mainZone cfg).map Val.arr
  | none => (get_listeners cs region subdomain mainZone cfg).map Val.arr

/-- The `NameSuffix` handling of lines 166-173 applied to the configuration:
a truthy suffix is deleted from the mapping. -/
def nameSuffixAdjust (cfg : List (String × Val)) : List (String × Val) :=
  match lookupAssoc cfg "NameSuffix" with
  | some sv => if truthy sv then eraseAssoc cfg "NameSuffix" else cfg
  | none => cfg

/-- The version string used for the balancer name (lines 166-173): the stack
version, with a truthy `NameSuffix` appended. -/
def lbVersion (cfg : List (String × Val)) (stackVersion : String) : String :=
  match lookupAssoc cfg "NameSuffix" with
  | some sv => if truthy sv then stackVersion ++ "-" ++ pyStr sv else stackVersion
  | none => stackVersion

/-- The `Scheme` default of lines 177-180 applied to the configuration: when
absent, `configuration["Scheme"] = "internal"` is written back. -/
def schemeAdjust (cfg : List (String × Val)) : List (String × Val) :=
  if (lookupAssoc cfg "Scheme").isSome then cfg else insertAssoc cfg "Scheme" (.str "internal")

/-- The computed (pre-override) property mapping of the balancer resource
(lines 196-233). -/
def computedProps (subnetMap hcTarget : String) (listenersVal : Val)
    (lbNameFull : String) (sg : Val) (stackName stackVersion : String) :
    List (String × Val) :=
  [("Subnets", .obj [("Fn::FindInMap",
      .arr [.str subnetMap, .obj [("Ref", .str "AWS::Region")], .str "Subnets"])]),
   ("HealthCheck", .obj [("HealthyThreshold", .str "2"), ("UnhealthyThreshold", .str "2"),
      ("Interval", .str "10"), ("Timeout", .str "5"), ("Target", .str hcTarget)]),
   ("Listeners", listenersVal),
   ("ConnectionDrainingPolicy", .obj [("Enabled", .bool true), ("Timeout", .num 60)]),
   ("CrossZone", .str "true"),
   ("LoadBalancerName", .str lbNameFull),
   ("SecurityGroups", sg),
   ("Tags", .arr
     [.obj [("Key", .str "Name"), ("Value", .str (stackName ++ "-" ++ stackVersion))],
      .obj [("Key", .str "StackName"), ("Value", .str stackName)],
      .obj [("Key", .str "StackVersion"), ("Value", .str stackVersion)]])]

/-- The health-check protocol (lines 146-149): configured value or `HTTP`. -/
def hcProtOf (cfg : List (String × Val)) : String :=
  match lookupAssoc cfg "HealthCheckProtocol" with
  | some v => pyStr v
  | none => "HTTP"

/-- The health-check path (lines 154-156): configured value or `/ui/`. -/
def hcPathOf (cfg : List (String × Val)) : String :=
  match lookupAssoc cfg "HealthCheckPath" with
  | some v => pyStr v
  | none => "/ui/"

/-- The health-check port (lines 158-160): configured value or the HTTP port. -/
def hcPortOf (cfg : List (String × Val)) (httpPortVal : Val) : Val :=
  match lookupAssoc cfg "HealthCheckPort" with
  | some v => v
  | none => httpPortVal

/-- The health-check target string `PROTOCOL:PORT/PATH` (lines 162-164). -/
def hcTargetOf (cfg : List (String × Val)) (httpPortVal : Val) : String :=
  hcProtOf cfg ++ ":" ++ pyStr (hcPortOf cfg httpPortVal) ++ hcPathOf cfg

/-- The balancer scheme (lines 175-178): configured value or `internal`. -/
def schemeOf (cfg2 : List (String × Val)) : String :=
  match lookupAssoc cfg2 "Scheme" with
  | some v => pyStr v
  | none => "internal"

/-- The subnet mapping key selected by the scheme (lines 190-193). -/
def subnetMapOf (scheme : String) : String :=
  if scheme = "internal" then "LoadBalancerInternalSubnets" else "LoadBalancerSubnets"

/-- Everything after listener selection (lines 146-238): health-check
validation and target, `NameSuffix`, scheme validation, subnet-map choice,
resource construction and the override merge.  Only the security-group
resolver is needed from the environment. -/
def finishAssembly (rsg : Val → String → Val) (lbName : String)
    (cfg : List (String × Val)) (argsRegion stackName stackVersion : String)
    (st : LoopState) (listenersVal : Val) :
    List (String × Val) × List Action × Option Err :=
  if hcProtOf cfg ∈ (["HTTP", "TCP", "UDP", "SSL"] : List String) then
    match lookupAssoc cfg "HTTPPort" with
    | none => (st.doc, st.acts, some (.keyError "HTTPPort"))
    | some httpPortVal =>
      if schemeOf (nameSuffixAdjust cfg) ∈ (["internet-facing", "internal"] : List String) then
        match lookupAssoc (schemeAdjust (nameSuffixAdjust cfg)) "SecurityGroups" with
        | none => (st.doc, st.acts, some (.keyError "SecurityGroups"))
        | some sgVal =>
          (insertAssoc st.doc lbName
            (Val.obj [("Type", .str "AWS::ElasticLoadBalancing::LoadBalancer"),
              ("Properties", .obj (mergeOverrides
                (computedProps (subnetMapOf (schemeOf (nameSuffixAdjust cfg)))
                  (hcTargetOf cfg httpPortVal) listenersVal
                  (get_load_balancer_name stackName (lbVersion cfg stackVersion))
                  (rsg sgVal argsRegion) stackName stackVersion)
                (schemeAdjust (nameSuffixAdjust cfg))))]),
           st.acts, none)
      else
        (st.doc, st.acts,
         some (.usage ("Scheme \"" ++ schemeOf (nameSuffixAdjust cfg) ++
           "\" is not supported for LoadBalancer")))
  else
    (st.doc, st.acts,
     some (.usage ("Protocol \"" ++ hcProtOf cfg ++ "\" is not supported for LoadBalancer")))

/-- `component_elastic_load_balancer` (lines 88-240).  `resources` is the
`Resources` sub-mapping of the output document (the only part the component
touches); the result is the final mapping, the DNS calls issued, and the error
that aborted assembly, if any. -/
def component_elastic_load_balancer (env : Env) (resources : List (String × Val))
    (configuration : List (String × Val)) (argsRegion stackName stackVersion : String) :
    List (String × Val) × List Action × Option Err :=
  match lookupAssoc configuration "Name" with
  | none => (resources, [], some (.keyError "Name"))
  | some nameVal =>
    match domainEntries configuration with
    | none => (resources, [], some (.keyError "Domains"))
    | some entries =>
      match processDomains env.dns (pyStr nameVal) stackName stackVersion
          ⟨resources, [], "", none⟩ entries with
      | (st, some e) => (st.doc, st.acts, some e)
      | (st, none) =>
        match listenersChoice env.certs env.region configuration st.subdomain st.mainZone with
        | .error e => (st.doc, st.acts, some e)
        | .ok listenersVal =>
          finishAssembly env.resolveSecurityGroups (pyStr nameVal) configuration argsRegion
            stackName stackVersion st listenersVal

/-- The `Properties` mapping of the resource registered under `lbName` in a
`Resources` mapping. -/
def finalProperties (doc : List (String × Val)) (lbName : String) :
    Option (List (String × Val)) :=
  match lookupAssoc doc lbName with
  | some (.obj fields) =>
    match lookupAssoc fields "Properties" with
    | some (.obj props) => some props
    | _ => none
  | _ => none

/-- Convenience projection: a single property of the resource `lbName` in the
outcome of an assembly run. -/
def propOf (out : List (String × Val) × List Action × Option Err) (lbName key : String) :
    Option Val :=
  match finalProperties out.1 lbName with
  | some props => lookupAssoc props key
  | none => none

/-- Whether a resource value is a Route53 record-set resource. -/
def isRecordSetRes (v : Val) : Bool :=
  match v with
  | .obj fields =>
    match lookupAssoc fields "Type" with
    | some (.str t) => t == "AWS::Route53::RecordSet"
    | _ => false
  | _ => false

/-- The update one domain binding applies to the `subdomain`/`main_zone` pair
(lines 137-142): a `weighted` binding overwrites the pair with its own
subdomain and zone, any other binding leaves it unchanged. -/
def weightedStep (p : String × Option String) (fields : List (String × Val)) :
    String × Option String :=
  match lookupAssoc fields "Type", lookupAssoc fields "Subdomain",
        lookupAssoc fields "Zone" with
  | some tv, some sv, some zv =>
    if pyStr tv = "weighted" then (pyStr sv, some (pyStr zv)) else p
  | _, _, _ => p

/-- The `subdomain`/`main_zone` pair as left by the `Domains` loop (lines
96-97, 141-142): the last binding of type `weighted` wins; bindings of other
types leave the pair unchanged. -/
def lastWeightedFrom (p : String × Option String) :
    List (String × List (String × Val)) → String × Option String
  | [] => p
  | (_, fields) :: rest => lastWeightedFrom (weightedStep p fields) rest

/-! Basic lemmas about the association-list operations and sorting. -/

theorem lookupAssoc_insertAssoc (l : List (String × α)) (k : String) (v : α) (k' : String) :
    lookupAssoc (insertAssoc l k v) k' = if k = k' then some v else lookupAssoc l k' := by
  induction l with
  | nil =>
    by_cases h : k = k' <;> simp [insertAssoc, lookupAssoc, h]
  | cons p rest ih =>
    obtain ⟨pk, pv⟩ := p
    by_cases h : pk = k
    · subst h
      by_cases h2 : pk = k' <;> simp [insertAssoc, lookupAssoc, h2]
    · by_cases h2 : pk = k'
      · subst h2
        have hkk : k ≠ pk := fun he => h he.symm
        simp [insertAssoc, lookupAssoc, h, hkk]
      · simp [insertAssoc, lookupAssoc, h, h2, ih]

theorem mem_eraseAssoc (l : List (String × α)) (key : String) (k : String) (v : α)
    (hk : k ≠ key) (hm : (k, v) ∈ l) : (k, v) ∈ eraseAssoc l key := by
  induction l with
  | nil => simp at hm
  | cons p rest ih =>
    obtain ⟨pk, pv⟩ := p
    rcases List.mem_cons.1 hm with he | hm'
    · cases he
      simp [eraseAssoc, hk]
    · by_cases h : pk = key
      · subst h
        simpa [eraseAssoc] using hm'
      · simp only [eraseAssoc, if_neg h]
        exact List.mem_cons.2 (Or.inr (ih hm'))

theorem keys_eraseAssoc_sublist (l : List (String × α)) (key : String) :
    ((eraseAssoc l key).map Prod.fst).Sublist (l.map Prod.fst) := by
  induction l with
  | nil => simp [eraseAssoc]
  | cons p rest ih =>
    obtain ⟨pk, pv⟩ := p
    by_cases h : pk = key
    · subst h
      simp only [eraseAssoc, if_pos rfl, List.map_cons]
      exact List.sublist_cons_self _ _
    · simp only [eraseAssoc, if_neg h, List.map_cons]
      exact ih.cons₂ pk

theorem nodup_keys_eraseAssoc (l : List (String × α)) (key : String)
    (h : (l.map Prod.fst).Nodup) : ((eraseAssoc l key).map Prod.fst).Nodup :=
  (keys_eraseAssoc_sublist l key).nodup h

theorem insertAssoc_of_not_mem (l : List (String × α)) (key : String) (v : α)
    (h : lookupAssoc l key = none) : insertAssoc l key v = l ++ [(key, v)] := by
  induction l with
  | nil => simp [insertAssoc]
  | cons p rest ih =>
    obtain ⟨pk, pv⟩ := p
    by_cases hk : pk = key
    · simp [lookupAssoc, hk] at h
    · simp [lookupAssoc, hk] at h
      simp [insertAssoc, hk, ih h]

theorem lookupAssoc_none_iff (l : List (String × α)) (key : String) :
    lookupAssoc l key = none ↔ key ∉ l.map Prod.fst := by
  induction l with
  | nil => simp [lookupAssoc]
  | cons p rest ih =>
    obtain ⟨pk, pv⟩ := p
    by_cases hk : pk = key
    · subst hk; simp [lookupAssoc]
    · simp only [lookupAssoc, if_neg hk, List.map_cons, List.mem_cons, ih]
      constructor
      · intro h hor
        rcases hor with h1 | h2
        · exact hk h1.symm
        · exact h h2
      · intro h h2
        exact h (Or.inr h2)

theorem lookupAssoc_of_mem_nodup (l : List (String × α)) (k : String) (v : α)
    (hnd : (l.map Prod.fst).Nodup) (hm : (k, v) ∈ l) : lookupAssoc l k = some v := by
  induction l with
  | nil => simp at hm
  | cons p rest ih =>
    obtain ⟨pk, pv⟩ := p
    simp only [List.map_cons, List.nodup_cons] at hnd
    rcases List.mem_cons.1 hm with he | hm'
    · cases he
      simp [lookupAssoc]
    · have hk : pk ≠ k := by
        intro hpk
        apply hnd.1
        rw [hpk]
        exact List.mem_map.mpr ⟨(k, v), hm', rfl⟩
      simp [lookupAssoc, hk, ih hnd.2 hm']

/-- The value the override merge leaves for a key: the last occurrence in the
configuration, if any. -/
def lastVal (cfg : List (String × Val)) (k : String) : Option Val :=
  cfg.foldl (fun acc kv => if kv.1 = k then some kv.2 else acc) none

theorem lastValAux (k : String) (cfg : List (String × Val)) : ∀ (init : Option Val),
    cfg.foldl (fun acc kv => if kv.1 = k then some kv.2 else acc) init =
      match lastVal cfg k with
      | some v => some v
      | none => init := by
  induction cfg with
  | nil => intro init; simp [lastVal]
  | cons p rest ih =>
    intro init
    have hrec : lastVal (p :: rest) k =
        match lastVal rest k with
        | some v => some v
        | none => if p.1 = k then some p.2 else none := by
      simp only [lastVal, List.foldl_cons]
      exact ih _
    rw [List.foldl_cons, ih _, hrec]
    rcases lastVal rest k with _ | w
    · by_cases hp : p.1 = k <;> simp [hp]
    · simp

theorem lastVal_cons (kv : String × Val) (cfg : List (String × Val)) (k : String) :
    lastVal (kv :: cfg) k =
      match lastVal cfg k with
      | some v => some v
      | none => if kv.1 = k then some kv.2 else none := by
  simp only [lastVal, List.foldl_cons]
  exact lastValAux k cfg _

theorem mem_of_lastVal_some (cfg : List (String × Val)) (k : String) (v : Val)
    (h : lastVal cfg k = some v) : k ∈ cfg.map Prod.fst := by
  induction cfg with
  | nil => simp [lastVal] at h
  | cons p rest ih =>
    rw [lastVal_cons] at h
    rcases hq : lastVal rest k with _ | u
    · rw [hq] at h
      by_cases hqk : p.1 = k
      · exact List.mem_cons.2 (Or.inl hqk.symm)
      · simp [hqk] at h
    · exact List.mem_cons.2 (Or.inr (ih (hq.trans (by rw [hq] at h; exact h ▸ rfl))))

theorem lastVal_of_mem_nodup (cfg : List (String × Val)) (k : String) (v : Val)
    (hnd : (cfg.map Prod.fst).Nodup) (hm : (k, v) ∈ cfg) : lastVal cfg k = some v := by
  induction cfg with
  | nil => simp at hm
  | cons p rest ih =>
    obtain ⟨pk, pv⟩ := p
    simp only [List.map_cons, List.nodup_cons] at hnd
    rcases List.mem_cons.1 hm with he | hm'
    · cases he
      have hnone : lastVal rest k = none := by
        rcases h : lastVal rest k with _ | w
        · rfl
        · exact absurd (mem_of_lastVal_some rest k w h) hnd.1
      rw [lastVal_cons, hnone]
      simp
    · have := ih hnd.2 hm'
      rw [lastVal_cons, this]

/-! Concrete certificate-store environments used to instantiate the claims. -/

/-- A store environment with one ACM match for `www.example.org` and two IAM
pattern matches for `example-org` (ordering keys 1 and 2). -/
def cs0 : CertStores :=
  { acmShape := fun _ => false
    iamShape := fun _ => false
    acmGetByArn := fun _ _ => .ok ()
    iamGetByName := fun _ => .error "not found"
    acmGetCerts := fun n => if n = "www.example.org" then [⟨"acm-arn", 5⟩] else []
    iamGetCertsPattern := fun p =>
      if p = "example-org" then [⟨"iam-old", 1⟩, ⟨"iam-new", 2⟩] else []
    iamGetCertsAll := [⟨"iam-any-old", 3⟩, ⟨"iam-any-new", 7⟩] }

/-- Like `cs0` but with no ACM matches at all. -/
def csAsc : CertStores := { cs0 with acmGetCerts := fun _ => [] }

/-- A store environment with no certificates anywhere. -/
def csEmpty : CertStores :=
  { acmShape := fun _ => false
    iamShape := fun _ => false
    acmGetByArn := fun _ _ => .ok ()
    iamGetByName := fun _ => .error "not found"
    acmGetCerts := fun _ => []
    iamGetCertsPattern := fun _ => []
    iamGetCertsAll := [] }

/-- C1: when the domain-based search is reached (no usable explicit
certificate id, a zone present), the chosen certificate is index 0 of the
concatenation of the ACM candidate list followed by the IAM candidate list;
whenever the ACM candidate list is non-empty the chosen certificate is one of
the ACM candidates, regardless of the IAM candidates' ordering keys. -/
theorem C1_domain_search_picks_head (cs : CertStores) (region subdomain zone : String)
    (cfg : List (String × Val)) (port : Val) (c : Cert) (rest : List Cert)
    (hssl : lookupAssoc cfg "SSLCertificateId" = none)
    (hport : lookupAssoc cfg "HTTPPort" = some port)
    (hcat : acmCandidates cs subdomain zone ++ iamCandidates cs zone = c :: rest) :
    get_listeners cs region subdomain (some zone) cfg = .ok [mkListener (.str c.arn) port]
    ∧ (acmCandidates cs subdomain zone ≠ [] → c ∈ acmCandidates cs subdomain zone) := by
  constructor
  · simp only [get_listeners, hssl, Option.getD, resolveCert, hcat, hport]
  · intro hne
    rcases h : acmCandidates cs subdomain zone with _ | ⟨a, t⟩
    · exact absurd h hne
    · rw [h, List.cons_append] at hcat
      injection hcat with h1 _
      rw [← h1]
      exact List.mem_cons_self a t

/-- C1 witness: with `cs0`, the search for `www.example.org` finds the ACM
candidate first even though both IAM candidates have other ordering keys. -/
theorem C1_witness :
    get_listeners cs0 "r" "www" (some "example.org") [("HTTPPort", .num 80)]
      = .ok [mkListener (.str "acm-arn") (.num 80)]
    ∧ (acmCandidates cs0 "www" "example.org" ≠ [] →
        (⟨"acm-arn", 5⟩ : Cert) ∈ acmCandidates cs0 "www" "example.org") :=
  C1_domain_search_picks_head cs0 "r" "www" "example.org" [("HTTPPort", .num 80)]
    (.num 80) ⟨"acm-arn", 5⟩ [⟨"iam-old", 1⟩, ⟨"iam-new", 2⟩] rfl rfl (by decide)

/-- C2 counterexample: the IAM candidates matching the name pattern are *not*
sorted descending — with pattern matches of keys 1 and 2 the candidate list
comes out ascending (`sorted(...)` without `reverse=True`, line 59), and the
resolution with no ACM match picks the key-1 certificate, not the key-2 one. -/
theorem C2_counterexample :
    iamCandidates csAsc "example.org" = [⟨"iam-old", 1⟩, ⟨"iam-new", 2⟩]
    ∧ ¬ List.Sorted keyGE (iamCandidates csAsc "example.org")
    ∧ get_listeners csAsc "r" "www" (some "example.org") [("HTTPPort", .num 80)]
        = .ok [mkListener (.str "iam-old") (.num 80)] := by
  have hlist : iamCandidates csAsc "example.org" = [⟨"iam-old", 1⟩, ⟨"iam-new", 2⟩] := by
    decide
  refine ⟨hlist, ?_, rfl⟩
  intro h
  rw [hlist] at h
  have h2 := List.rel_of_sorted_cons h ⟨"iam-new", 2⟩ (List.mem_singleton.2 rfl)
  exact absurd h2 (by decide)

/-- C2 amended: in the domain-based search the ACM candidates are sorted by
ordering key *descending*, while the IAM candidates matching the name pattern
are sorted *ascending*; only the unfiltered IAM fallback (used when the
pattern search is empty) is sorted descending. -/
theorem C2_amended (cs : CertStores) (subdomain zone : String) :
    List.Sorted keyGE (acmCandidates cs subdomain zone)
    ∧ List.Sorted keyLE
        (sortCertsAsc (cs.iamGetCertsPattern (if zone = "" then "" else iamPatternOf zone)))
    ∧ (∀ c rest,
        sortCertsAsc (cs.iamGetCertsPattern (if zone = "" then "" else iamPatternOf zone))
          = c :: rest → iamCandidates cs zone = c :: rest)
    ∧ (sortCertsAsc (cs.iamGetCertsPattern (if zone = "" then "" else iamPatternOf zone))
          = [] → iamCandidates cs zone = sortCertsDesc cs.iamGetCertsAll
            ∧ List.Sorted keyGE (iamCandidates cs zone)) := by
  refine ⟨?_, ?_, ?_, ?_⟩
  · unfold acmCandidates
    by_cases h : zone = "" <;> simp [h, sortCertsDesc, List.sorted_insertionSort]
  · exact List.sorted_insertionSort keyLE _
  · intro c rest h
    simp only [iamCandidates]
    rw [h]
  · intro h
    simp only [iamCandidates]
    rw [h]
    exact ⟨rfl, List.sorted_insertionSort keyGE _⟩

/-- C2 witness: instantiating the amended claim at `cs0` — the pattern
candidates for `example.org` are ascending, and for a pattern with no matches
the fallback list is the descending unfiltered list. -/
theorem C2_witness :
    iamCandidates cs0 "example.org" = [⟨"iam-old", 1⟩, ⟨"iam-new", 2⟩]
    ∧ iamCandidates cs0 "nomatch.org" = [⟨"iam-any-new", 7⟩, ⟨"iam-any-old", 3⟩] := by
  have h1 := (C2_amended cs0 "www" "example.org").2.2.1
    ⟨"iam-old", 1⟩ [⟨"iam-new", 2⟩] (by decide)
  have h2 := ((C2_amended cs0 "www" "nomatch.org").2.2.2 (by decide)).1
  exact ⟨h1, by rw [h2]; decide⟩

/-- C3: when the ACM domain search and the exact-pattern IAM search are both
empty and the unfiltered IAM store is not, resolution returns the ARN of the
head of the unfiltered IAM list sorted descending. -/
theorem C3_unfiltered_iam_fallback (cs : CertStores) (region subdomain zone : String)
    (cfg : List (String × Val)) (port : Val) (c : Cert) (rest : List Cert)
    (hssl : lookupAssoc cfg "SSLCertificateId" = none)
    (hport : lookupAssoc cfg "HTTPPort" = some port)
    (hacm : cs.acmGetCerts (composedName subdomain zone) = [])
    (hiam : cs.iamGetCertsPattern (if zone = "" then "" else iamPatternOf zone) = [])
    (hall : sortCertsDesc cs.iamGetCertsAll = c :: rest) :
    get_listeners cs region subdomain (some zone) cfg
      = .ok [mkListener (.str c.arn) port] := by
  have hacmc : acmCandidates cs subdomain zone = [] := by
    unfold acmCandidates
    by_cases h : zone = "" <;> simp [h, hacm, sortCertsDesc, List.insertionSort]
  have hiamc : iamCandidates cs zone = c :: rest := by
    simp only [iamCandidates]
    rw [hiam]
    simpa [sortCertsAsc, List.insertionSort] using hall
  simp only [get_listeners, hssl, Option.getD, resolveCert, hacmc, hiamc,
    List.nil_append, hport]

/-- C3 witness: with no ACM match and no pattern match for `other.org`, the
newest unfiltered IAM certificate (key 7) is chosen. -/
theorem C3_witness :
    get_listeners cs0 "r" "www" (some "other.org") [("HTTPPort", .num 80)]
      = .ok [mkListener (.str "iam-any-new") (.num 80)] :=
  C3_unfiltered_iam_fallback cs0 "r" "www" "other.org" [("HTTPPort", .num 80)] (.num 80)
    ⟨"iam-any-new", 7⟩ [⟨"iam-any-old", 3⟩] rfl rfl (by decide) (by decide) (by decide)

/-- C4 counterexample: with no explicit certificate, *no* zone at all
(`main_zone is None`) and every store empty, resolution does not fail — it
returns the single listener with `SSLCertificateId` `None` instead of raising
the generic not-found error the claim asserts. -/
theorem C4_counterexample :
    get_listeners csEmpty "r" "www" none [("HTTPPort", .num 80)]
      = .ok [mkListener .vnone (.num 80)] := rfl

/-- C4 amended: with no explicit certificate — when the zone is absent
(`None`), resolution succeeds with no certificate; when a zone is present and
every candidate list is empty, it fails, with the generic message for the
empty-string zone and with a message naming the composed domain
`subdomain.zone` for a non-empty zone. -/
theorem C4_amended (cs : CertStores) (region subdomain : String)
    (cfg : List (String × Val)) (port : Val)
    (hssl : lookupAssoc cfg "SSLCertificateId" = none)
    (hport : lookupAssoc cfg "HTTPPort" = some port) :
    get_listeners cs region subdomain none cfg = .ok [mkListener .vnone port]
    ∧ (∀ zone, acmCandidates cs subdomain zone = [] → iamCandidates cs zone = [] →
        ((zone = "" → get_listeners cs region subdomain (some zone) cfg
            = .error (.fatal "Could not find any SSL certificate"))
         ∧ (zone ≠ "" → get_listeners cs region subdomain (some zone) cfg
            = .error (.fatal ("Could not find any matching SSL certificate for \"" ++
                composedName subdomain zone ++ "\""))))) := by
  constructor
  · simp only [get_listeners, hssl, Option.getD, resolveCert, hport]
  · intro zone hacm hiam
    constructor
    · intro hz
      subst hz
      simp [get_listeners, hssl, Option.getD, resolveCert, hacm, hiam]
    · intro hz
      simp [get_listeners, hssl, Option.getD, resolveCert, hacm, hiam, hz]

/-- C4 witness: instantiating the amended claim at the empty store — the
zone-absent case succeeds with no certificate, the empty-string zone fails
generically, and zone `nothing.org` fails naming `www.nothing.org`. -/
theorem C4_witness :
    get_listeners csEmpty "r" "www" none [("HTTPPort", .num 80)]
      = .ok [mkListener .vnone (.num 80)]
    ∧ get_listeners csEmpty "r" "www" (some "") [("HTTPPort", .num 80)]
      = .error (.fatal "Could not find any SSL certificate")
    ∧ get_listeners csEmpty "r" "www" (some "nothing.org") [("HTTPPort", .num 80)]
      = .error (.fatal ("Could not find any matching SSL certificate for \"" ++
          composedName "www" "nothing.org" ++ "\"")) := by
  have h := C4_amended csEmpty "r" "www" [("HTTPPort", .num 80)] (.num 80) rfl rfl
  refine ⟨h.1, ?_, ?_⟩
  · exact ((h.2 "" (by decide) (by decide)).1 rfl)
  · exact ((h.2 "nothing.org" (by decide) (by decide)).2 (by decide))

/-- C5 counterexample: for a 32-character version string the claimed
32-character bound fails — with stack name `"a"` the name comes out 33
characters long (the slice bound `32 - len(version) - 1` is negative). -/
theorem C5_counterexample :
    (get_load_balancer_name "a" "aaaaaaaaaaaaaaaaaaaaaaaaaaaaaaaa").length = 33
    ∧ ¬ (get_load_balancer_name "a" "aaaaaaaaaaaaaaaaaaaaaaaaaaaaaaaa").length ≤ 32 := by
  have h : (get_load_balancer_name "a" "aaaaaaaaaaaaaaaaaaaaaaaaaaaaaaaa").length = 33 := rfl
  exact ⟨h, by rw [h]; omega⟩

/-- C5 amended: whenever the version string has at most 31 characters (so the
slice bound is non-negative), the load-balancer name is the stack name
truncated to `32 - len(version) - 1` characters followed by `"-"` and the
version; its length is at most 32 and it ends with `"-" ++ version`. -/
theorem C5_amended (stack_name stack_version : String)
    (h : stack_version.length ≤ 31) :
    get_load_balancer_name stack_name stack_version
      = ⟨stack_name.data.take (31 - stack_version.length)⟩ ++ "-" ++ stack_version
    ∧ (get_load_balancer_name stack_name stack_version).length ≤ 32
    ∧ ("-" ++ stack_version).data <:+ (get_load_balancer_name stack_name stack_version).data := by
  have hstop : (0 : Int) ≤ 32 - (stack_version.length : Int) - 1 := by omega
  have htn : ((32 : Int) - (stack_version.length : Int) - 1).toNat
      = 31 - stack_version.length := by omega
  have heq : get_load_balancer_name stack_name stack_version
      = ⟨stack_name.data.take (31 - stack_version.length)⟩ ++ "-" ++ stack_version := by
    unfold get_load_balancer_name pySlice
    rw [if_pos hstop, htn]
  refine ⟨heq, ?_, ?_⟩
  · rw [heq]
    have hlen : (⟨stack_name.data.take (31 - stack_version.length)⟩ ++ "-" ++
        stack_version : String).length
        = (stack_name.data.take (31 - stack_version.length)).length + 1 +
          stack_version.length := by
      rw [String.length_append, String.length_append]
      rfl
    rw [hlen]
    have := List.length_take_le (31 - stack_version.length) stack_name.data
    omega
  · rw [heq]
    refine ⟨stack_name.data.take (31 - stack_version.length), ?_⟩
    simp only [String.data_append]
    exact (List.append_assoc _ _ _).symm

/-- C5 witness: the amended claim at the doctest input — the truncated name
for a long stack name and version `"1"`. -/
theorem C5_witness :
    get_load_balancer_name "toolong123456789012345678901234567890" "1"
      = ⟨("toolong123456789012345678901234567890" : String).data.take
          (31 - ("1" : String).length)⟩ ++ "-" ++ "1"
    ∧ (get_load_balancer_name "toolong123456789012345678901234567890" "1").length ≤ 32
    ∧ ("-" ++ ("1" : String)).data <:+
        (get_load_balancer_name "toolong123456789012345678901234567890" "1").data :=
  C5_amended "toolong123456789012345678901234567890" "1" (by decide)

/-! Document invariants of the `Domains` loop: every resource it inserts is a
Route53 record set, so on any abort the load balancer is not in the document. -/

theorem lookup_insert_recordset (doc : List (String × Val)) (name k : String) (r : Val)
    (props : List (String × Val))
    (h : lookupAssoc (insertAssoc doc name (recordSetRes props)) k = some r) :
    lookupAssoc doc k = some r ∨ isRecordSetRes r = true := by
  rw [lookupAssoc_insertAssoc] at h
  by_cases hk : name = k
  · rw [if_pos hk] at h
    right
    cases h
    rfl
  · rw [if_neg hk] at h
    exact Or.inl h

theorem processOneDomainCore_doc (dns : DnsEnv) (lbName sn sv : String) (st : LoopState)
    (name subStr zoneStr : String) (tyOpt : Option Val) :
    ∀ k r,
      lookupAssoc (processOneDomainCore dns lbName sn sv st name subStr zoneStr tyOpt).1.doc k
        = some r →
      lookupAssoc st.doc k = some r ∨ isRecordSetRes r = true := by
  intro k r
  unfold processOneDomainCore
  rcases hpz : processZones dns (subStr ++ "." ++ zoneStr) st.acts
      (convertedRecords dns (dns.getRecords (subStr ++ "." ++ zoneStr))) with ⟨acts', e1⟩
  cases e1 with
  | some e =>
    dsimp only
    intro h
    exact Or.inl h
  | none =>
    cases tyOpt with
    | none =>
      dsimp only
      intro h
      exact lookup_insert_recordset _ _ _ _ _ h
    | some tv =>
      dsimp only
      by_cases hw : pyStr tv = "weighted"
      · rw [if_pos hw]
        dsimp only
        intro h
        rcases lookup_insert_recordset _ _ _ _ _ h with h1 | h2
        · exact lookup_insert_recordset _ _ _ _ _ h1
        · exact Or.inr h2
      · rw [if_neg hw]
        dsimp only
        intro h
        exact lookup_insert_recordset _ _ _ _ _ h

theorem processOneDomain_doc (dns : DnsEnv) (lbName sn sv : String) (st : LoopState)
    (n : String) (fields : List (String × Val)) :
    ∀ k r, lookupAssoc (processOneDomain dns lbName sn sv st n fields).1.doc k = some r →
      lookupAssoc st.doc k = some r ∨ isRecordSetRes r = true := by
  intro k r
  unfold processOneDomain
  rcases lookupAssoc fields "Subdomain" with _ | sv0
  · exact fun h => Or.inl h
  · rcases lookupAssoc fields "Zone" with _ | zv0
    · exact fun h => Or.inl h
    · exact processOneDomainCore_doc dns lbName sn sv st (lbName ++ n)
        (pyStr sv0) (pyStr zv0) (lookupAssoc fields "Type") k r

theorem processDomains_doc (dns : DnsEnv) (lbName sn sv : String) :
    ∀ (entries : List (String × List (String × Val))) (st : LoopState) (k : String) (r : Val),
      lookupAssoc (processDomains dns lbName sn sv st entries).1.doc k = some r →
      lookupAssoc st.doc k = some r ∨ isRecordSetRes r = true := by
  intro entries
  induction entries with
  | nil => intro st k r h; exact Or.inl h
  | cons nf rest ih =>
    intro st k r h
    obtain ⟨n, fields⟩ := nf
    unfold processDomains at h
    rcases hone : processOneDomain dns lbName sn sv st n fields with ⟨st1, e1⟩
    rw [hone] at h
    cases e1 with
    | none =>
      simp only at h
      rcases ih st1 k r h with h1 | h2
      · have := processOneDomain_doc dns lbName sn sv st n fields k r
        rw [hone] at this
        exact this h1
      · exact Or.inr h2
    | some err =>
      simp only at h
      have := processOneDomain_doc dns lbName sn sv st n fields k r
      rw [hone] at this
      exact this h

theorem finishAssembly_err_doc (rsg : Val → String → Val) (lbName : String)
    (cfg : List (String × Val)) (ar sn sv : String) (st : LoopState) (lv : Val)
    (doc : List (String × Val)) (acts : List Action) (e : Err)
    (h : finishAssembly rsg lbName cfg ar sn sv st lv = (doc, acts, some e)) :
    doc = st.doc := by
  unfold finishAssembly at h
  split at h
  · split at h
    · injection h with h1 h2
      exact h1.symm
    · split at h
      · split at h
        · injection h with h1 h2
          exact h1.symm
        · injection h with h1 h2
          injection h2 with h2a h2b
          cases h2b
      · injection h with h1 h2
        exact h1.symm
  · injection h with h1 h2
    exact h1.symm

theorem component_error_doc (env : Env) (res cfg : List (String × Val))
    (ar sn sv : String) (doc : List (String × Val)) (acts : List Action) (e : Err)
    (h : component_elastic_load_balancer env res cfg ar sn sv = (doc, acts, some e)) :
    ∀ k r, lookupAssoc doc k = some r →
      lookupAssoc res k = some r ∨ isRecordSetRes r = true := by
  intro k r
  unfold component_elastic_load_balancer at h
  rcases hname : lookupAssoc cfg "Name" with _ | nameVal
  · rw [hname] at h
    dsimp only at h
    injection h with h1 h2
    rw [← h1]
    exact fun hr => Or.inl hr
  · rw [hname] at h
    dsimp only at h
    rcases hent : domainEntries cfg with _ | entries
    · rw [hent] at h
      dsimp only at h
      injection h with h1 h2
      rw [← h1]
      exact fun hr => Or.inl hr
    · rw [hent] at h
      dsimp only at h
      rcases hd : processDomains env.dns (pyStr nameVal) sn sv ⟨res, [], "", none⟩ entries
        with ⟨st, e1⟩
      rw [hd] at h
      have hinv : lookupAssoc st.doc k = some r →
          lookupAssoc res k = some r ∨ isRecordSetRes r = true := by
        intro hr
        have := processDomains_doc env.dns (pyStr nameVal) sn sv entries
          ⟨res, [], "", none⟩ k r
        rw [hd] at this
        exact this hr
      cases e1 with
      | some err =>
        dsimp only at h
        injection h with h1 h2
        rw [← h1]
        exact hinv
      | none =>
        dsimp only at h
        rcases hlc : listenersChoice env.certs env.region cfg st.subdomain st.mainZone
          with e' | lv
        · rw [hlc] at h
          dsimp only at h
          injection h with h1 h2
          rw [← h1]
          exact hinv
        · rw [hlc] at h
          dsimp only at h
          have hdoc := finishAssembly_err_doc env.resolveSecurityGroups (pyStr nameVal)
            cfg ar sn sv st lv doc acts e h
          rw [hdoc]
          exact hinv

/-- C6: declining a required DNS conversion raises `InvalidState`; the
assembly run that ends in `InvalidState` has added only Route53 record-set
resources to the output document — in particular the load-balancer resource
was never written — and a binding that raises stops the loop, so no later
domain binding is processed. -/
theorem C6_decline_aborts_assembly :
    (∀ (dns : DnsEnv) (dn : String) (acts : List Action) (hz : HostedZone)
        (gd gu : List Record) (rest : List (HostedZone × List Record × List Record)),
      dns.confirm dn hz.name gu.length = false →
      processZones dns dn acts ((hz, gd, gu) :: rest) =
        (acts, some (.invalidState
          "Cant create domains because there are non A Type records.")))
    ∧ (∀ (dns : DnsEnv) (lbName sn sv : String) (st : LoopState) (n : String)
        (fields : List (String × Val)) (st1 : LoopState) (e : Err)
        (rest : List (String × List (String × Val))),
        processOneDomain dns lbName sn sv st n fields = (st1, some e) →
        processDomains dns lbName sn sv st ((n, fields) :: rest) = (st1, some e))
    ∧ (∀ (env : Env) (res cfg : List (String × Val)) (ar sn sv : String)
        (doc : List (String × Val)) (acts : List Action) (m : String),
        component_elastic_load_balancer env res cfg ar sn sv
          = (doc, acts, some (.invalidState m)) →
        ∀ k r, lookupAssoc doc k = some r →
          lookupAssoc res k = some r ∨ isRecordSetRes r = true) := by
  refine ⟨?_, ?_, ?_⟩
  · intro dns dn acts hz gd gu rest hconf
    unfold processZones
    rw [hconf]
    simp
  · intro dns lbName sn sv st n fields st1 e rest h
    unfold processDomains
    rw [h]
  · intro env res cfg ar sn sv doc acts m h
    exact component_error_doc env res cfg ar sn sv doc acts (.invalidState m) h

/-! Concrete DNS environments and configurations for the component claims. -/

/-- One CNAME record colliding with `www.ex.org` in hosted zone `hz1`. -/
def rec1 : Record := ⟨"CNAME", ⟨"hz1"⟩, "www.ex.org", "old"⟩

/-- One `A` record for `www.ex.org` in the same hosted zone. -/
def recA : Record := ⟨"A", ⟨"hz1"⟩, "www.ex.org", "addr"⟩

/-- DNS store with the CNAME record above; the operator declines everything. -/
def dns6 : DnsEnv :=
  { getRecords := fun n => if n = "www.ex.org" then [rec1] else []
    toAlias := fun r => ⟨"A", r.hostedZone, r.rname, "alias:" ++ r.rdata⟩
    confirm := fun _ _ _ => false }

/-- The same DNS store with an operator that accepts every conversion. -/
def dns7 : DnsEnv := { dns6 with confirm := fun _ _ _ => true }

def env6 : Env :=
  { certs := csEmpty, region := "eu", dns := dns6,
    resolveSecurityGroups := fun v _ => v }

/-- Fields of the weighted `www.ex.org` binding. -/
def fieldsTwo : List (String × Val) :=
  [("Subdomain", .str "www"), ("Zone", .str "ex.org"), ("Type", .str "weighted")]

/-- Configuration with a clean first binding and the declined second one. -/
def cfg6 : List (String × Val) :=
  [("Name", .str "LB"),
   ("Domains", .obj
     [("One", .obj [("Subdomain", .str "a"), ("Zone", .str "z1"), ("Type", .str "plain")]),
      ("Two", .obj fieldsTwo)]),
   ("HTTPPort", .num 80),
   ("SecurityGroups", .arr [.str "sg"])]

/-- C6 witness: running the component against `env6`/`cfg6` ends in
`InvalidState` after the first binding's record set was registered; applying
the theorem shows that that lone surviving entry is a record set (not the load
balancer), and that the declining binding stops the loop whatever follows. -/
theorem C6_witness :
    (lookupAssoc ([] : List (String × Val)) "LBOne"
        = some (recordSetRes (basePropsFor "LB" "a.z1" "z1"))
      ∨ isRecordSetRes (recordSetRes (basePropsFor "LB" "a.z1" "z1")) = true)
    ∧ processDomains dns6 "LB" "stack" "1" ⟨[], [], "", none⟩
        [("Two", fieldsTwo), ("Later", [])]
        = (⟨[], [], "", none⟩,
           some (.invalidState "Cant create domains because there are non A Type records."))
    ∧ processZones dns6 "www.ex.org" [] [(⟨"hz1"⟩, [rec1], [dns6.toAlias rec1])]
        = ([], some (.invalidState
            "Cant create domains because there are non A Type records.")) := by
  refine ⟨?_, ?_, ?_⟩
  · exact C6_decline_aborts_assembly.2.2 env6 [] cfg6 "r" "stack" "1"
      [("LBOne", recordSetRes (basePropsFor "LB" "a.z1" "z1"))] []
      "Cant create domains because there are non A Type records." rfl
      "LBOne" (recordSetRes (basePropsFor "LB" "a.z1" "z1")) rfl
  · exact C6_decline_aborts_assembly.2.1 dns6 "LB" "stack" "1" ⟨[], [], "", none⟩
      "Two" fieldsTwo ⟨[], [], "", none⟩
      (.invalidState "Cant create domains because there are non A Type records.")
      [("Later", [])] rfl
  · exact C6_decline_aborts_assembly.1 dns6 "www.ex.org" [] ⟨"hz1"⟩
      [rec1] [dns6.toAlias rec1] [] rfl

/-! Characterization of the conversion plan (lines 103-126). -/

/-- Lookup of a hosted zone's group in a conversion plan. -/
def planFor (plan : List (HostedZone × List Record × List Record)) (hz : HostedZone) :
    Option (List Record × List Record) :=
  match plan with
  | [] => none
  | (z, g) :: rest => if z = hz then some g else planFor rest hz

/-- The hosted zones of a plan, in order. -/
def planZones (plan : List (HostedZone × List Record × List Record)) : List HostedZone :=
  plan.map (fun e => e.1)

theorem planFor_addConverted (dns : DnsEnv)
    (acc : List (HostedZone × List Record × List Record)) (r : Record) (hz : HostedZone) :
    planFor (addConverted dns acc r) hz =
      if r.hostedZone = hz then
        match planFor acc hz with
        | none => some ([r], [dns.toAlias r])
        | some (gd, gu) => some (gd ++ [r], gu ++ [dns.toAlias r])
      else planFor acc hz := by
  induction acc with
  | nil =>
    by_cases h : r.hostedZone = hz <;> simp [addConverted, planFor, h]
  | cons e rest ih =>
    obtain ⟨z, gd, gu⟩ := e
    by_cases hzr : z = r.hostedZone
    · by_cases hzz : z = hz
      · have h1 : r.hostedZone = hz := hzr.symm.trans hzz
        simp [addConverted, planFor, hzr, hzz, h1]
      · have h1 : ¬ r.hostedZone = hz := fun he => hzz (hzr.trans he)
        simp [addConverted, planFor, hzr, hzz, h1]
    · by_cases hzz : z = hz
      · have h1 : ¬ r.hostedZone = hz := fun he => hzr (hzz.trans he.symm)
        have h2 : ¬ hz = r.hostedZone := fun he => h1 he.symm
        simp [addConverted, planFor, hzr, hzz, h1, h2]
      · simp [addConverted, planFor, hzr, hzz, ih]

theorem planZones_addConverted (dns : DnsEnv)
    (acc : List (HostedZone × List Record × List Record)) (r : Record) :
    planZones (addConverted dns acc r) =
      if r.hostedZone ∈ planZones acc then planZones acc
      else planZones acc ++ [r.hostedZone] := by
  induction acc with
  | nil => simp [addConverted, planZones]
  | cons e rest ih =>
    obtain ⟨z, g⟩ := e
    by_cases hzr : z = r.hostedZone
    · subst hzr
      simp [addConverted, planZones]
    · have hne : ¬ r.hostedZone = z := fun he => hzr he.symm
      by_cases hm : r.hostedZone ∈ planZones rest
      all_goals simp only [planZones] at hm ih
      · simp [addConverted, planZones, hzr, hne, hm, ih, List.mem_cons]
      · simp [addConverted, planZones, hzr, hne, hm, ih, List.mem_cons]

theorem planZones_nodup_addConverted (dns : DnsEnv)
    (acc : List (HostedZone × List Record × List Record)) (r : Record)
    (h : (planZones acc).Nodup) : (planZones (addConverted dns acc r)).Nodup := by
  rw [planZones_addConverted]
  by_cases hm : r.hostedZone ∈ planZones acc
  · simpa [hm] using h
  · have hnd : (planZones acc ++ [r.hostedZone]).Nodup := by
      rw [List.nodup_append]
      refine ⟨h, List.nodup_singleton _, ?_⟩
      intro x hx hx2
      rw [List.mem_singleton] at hx2
      exact hm (hx2 ▸ hx)
    simpa [hm] using hnd

theorem convertedRecords_zones_nodup (dns : DnsEnv) (records : List Record) :
    (planZones (convertedRecords dns records)).Nodup := by
  suffices h : ∀ acc, (planZones acc).Nodup →
      (planZones (records.foldl
        (fun acc r => if r.rtype = "A" then acc else addConverted dns acc r) acc)).Nodup by
    exact h [] (by simp [planZones])
  induction records with
  | nil => intro acc h; exact h
  | cons r rest ih =>
    intro acc h
    rw [List.foldl_cons]
    by_cases hA : r.rtype = "A"
    · rw [if_pos hA]
      exact ih acc h
    · rw [if_neg hA]
      exact ih _ (planZones_nodup_addConverted dns acc r h)

theorem foldConv_planFor (dns : DnsEnv) (hz : HostedZone) (records : List Record) :
    ∀ (acc : List (HostedZone × List Record × List Record)),
      planFor (records.foldl
          (fun acc r => if r.rtype = "A" then acc else addConverted dns acc r) acc) hz =
        (match planFor acc hz,
               records.filter (fun r => !(r.rtype == "A") && (r.hostedZone == hz)) with
         | none, [] => none
         | none, f => some (f, f.map dns.toAlias)
         | some (gd, gu), f => some (gd ++ f, gu ++ f.map dns.toAlias)) := by
  induction records with
  | nil =>
    intro acc
    rcases h : planFor acc hz with _ | ⟨gd, gu⟩ <;> simp [h]
  | cons r rest ih =>
    intro acc
    rw [List.foldl_cons]
    by_cases hA : r.rtype = "A"
    · rw [if_pos hA, ih]
      have hf : (r :: rest).filter (fun r => !(r.rtype == "A") && (r.hostedZone == hz))
          = rest.filter (fun r => !(r.rtype == "A") && (r.hostedZone == hz)) := by
        simp [List.filter_cons, hA]
      rw [hf]
    · rw [if_neg hA, ih, planFor_addConverted]
      by_cases hzr : r.hostedZone = hz
      · rw [if_pos hzr]
        have hf : (r :: rest).filter (fun r => !(r.rtype == "A") && (r.hostedZone == hz))
            = r :: rest.filter (fun r => !(r.rtype == "A") && (r.hostedZone == hz)) := by
          simp [List.filter_cons, hA, hzr]
        rw [hf]
        rcases planFor acc hz with _ | ⟨gd, gu⟩
        · rcases rest.filter (fun r => !(r.rtype == "A") && (r.hostedZone == hz))
            with _ | ⟨f0, fr⟩ <;> simp
        · rcases rest.filter (fun r => !(r.rtype == "A") && (r.hostedZone == hz))
            with _ | ⟨f0, fr⟩ <;> simp
      · rw [if_neg hzr]
        have hf : (r :: rest).filter (fun r => !(r.rtype == "A") && (r.hostedZone == hz))
            = rest.filter (fun r => !(r.rtype == "A") && (r.hostedZone == hz)) := by
          simp [List.filter_cons, hA, hzr]
        rw [hf]

theorem convertedRecords_planFor (dns : DnsEnv) (records : List Record) (hz : HostedZone) :
    planFor (convertedRecords dns records) hz =
      (match records.filter (fun r => !(r.rtype == "A") && (r.hostedZone == hz)) with
       | [] => none
       | f => some (f, f.map dns.toAlias)) := by
  unfold convertedRecords
  rw [foldConv_planFor dns hz records []]
  cases hf : records.filter (fun r => !(r.rtype == "A") && (r.hostedZone == hz)) with
  | nil => simp [planFor]
  | cons f0 fr => simp [planFor]

theorem planFor_of_mem_nodup (plan : List (HostedZone × List Record × List Record))
    (hz : HostedZone) (g : List Record × List Record)
    (hnd : (planZones plan).Nodup) (hm : (hz, g) ∈ plan) : planFor plan hz = some g := by
  induction plan with
  | nil => simp at hm
  | cons e rest ih =>
    obtain ⟨z, g'⟩ := e
    simp only [planZones, List.map_cons, List.nodup_cons] at hnd
    rcases List.mem_cons.1 hm with he | hm'
    · cases he
      simp [planFor]
    · have hz' : ¬ z = hz := by
        intro hzz
        apply hnd.1
        rw [hzz]
        exact List.mem_map.mpr ⟨(hz, g), hm', rfl⟩
      simp only [planFor, if_neg hz']
      exact ih hnd.2 hm'

theorem processZones_all_confirmed (dns : DnsEnv) (dn : String)
    (plan : List (HostedZone × List Record × List Record)) : ∀ (acts : List Action),
    (∀ e ∈ plan, dns.confirm dn e.1.name e.2.2.length = true) →
    processZones dns dn acts plan =
      (acts ++ plan.flatMap (fun e =>
        [.deleteRecords e.1 e.2.1 "Records that will be converted to Alias",
         .upsertRecords e.1 e.2.2 "Converted non alias records"]), none) := by
  induction plan with
  | nil => intro acts h; simp [processZones]
  | cons e rest ih =>
    intro acts h
    obtain ⟨hz, gd, gu⟩ := e
    have hc : dns.confirm dn hz.name gu.length = true := h _ (List.mem_cons_self _ _)
    unfold processZones
    simp only [hc, if_true]
    rw [ih _ (fun e he => h e (List.mem_cons.2 (Or.inr he)))]
    simp [List.flatMap_cons, List.append_assoc]

/-- C7: the conversion plan of a domain binding contains, per hosted zone,
exactly the fetched records of type other than `A` owned by that zone, paired
with their alias equivalents in the same order; records of type `A` are in no
delete group (and only aliases of converted non-`A` records are upserted);
when the operator accepts everything, each zone triggers exactly two calls —
the delete of the originals and then the upsert of the aliases, in that order. -/
theorem C7_conversion_plan (dns : DnsEnv) (records : List Record) (dn : String)
    (acts : List Action) :
    (planZones (convertedRecords dns records)).Nodup
    ∧ (∀ hz gd gu, (hz, gd, gu) ∈ convertedRecords dns records →
        gd = records.filter (fun r => !(r.rtype == "A") && (r.hostedZone == hz))
        ∧ gu = gd.map dns.toAlias
        ∧ (∀ r ∈ records, r.rtype = "A" → r ∉ gd))
    ∧ ((∀ e ∈ convertedRecords dns records, dns.confirm dn e.1.name e.2.2.length = true) →
        processZones dns dn acts (convertedRecords dns records)
          = (acts ++ (convertedRecords dns records).flatMap (fun e =>
              [.deleteRecords e.1 e.2.1 "Records that will be converted to Alias",
               .upsertRecords e.1 e.2.2 "Converted non alias records"]), none)) := by
  refine ⟨convertedRecords_zones_nodup dns records, ?_, ?_⟩
  · intro hz gd gu hm
    have hp := planFor_of_mem_nodup (convertedRecords dns records) hz (gd, gu)
      (convertedRecords_zones_nodup dns records) hm
    rw [convertedRecords_planFor] at hp
    rcases hflt : records.filter (fun r => !(r.rtype == "A") && (r.hostedZone == hz))
      with _ | ⟨f0, fr⟩
    · rw [hflt] at hp
      cases hp
    · rw [hflt] at hp
      injection hp with hp1
      have hgd : gd = f0 :: fr := (Prod.mk.injEq .. ▸ hp1.symm).1
      have hgu : gu = (f0 :: fr).map dns.toAlias := (Prod.mk.injEq .. ▸ hp1.symm).2
      refine ⟨hgd.trans hflt.symm, ?_, ?_⟩
      · rw [hgu, hgd]
      · intro r hr hA hmem
        rw [hgd.trans hflt.symm] at hmem
        have := (List.mem_filter.1 hmem).2
        simp [hA] at this
  · exact processZones_all_confirmed dns dn (convertedRecords dns records) acts

/-- C7 witness: with one CNAME and one `A` record for `www.ex.org` under the
same hosted zone, accepting the prompt issues exactly the delete of the CNAME
followed by the upsert of its alias; the `A` record is in no delete group. -/
theorem C7_witness :
    processZones dns7 "www.ex.org" [] (convertedRecords dns7 [rec1, recA])
      = ([.deleteRecords ⟨"hz1"⟩ [rec1] "Records that will be converted to Alias",
          .upsertRecords ⟨"hz1"⟩ [dns7.toAlias rec1] "Converted non alias records"], none)
    ∧ recA ∉ [rec1] := by
  have h3 := (C7_conversion_plan dns7 [rec1, recA] "www.ex.org" []).2.2 (by decide)
  have h2 := (C7_conversion_plan dns7 [rec1, recA] "www.ex.org" []).2.1
    ⟨"hz1"⟩ [rec1] [dns7.toAlias rec1] (by decide)
  refine ⟨h3.trans (by decide), ?_⟩
  intro hmem
  exact h2.2.2 recA (by decide) rfl (by simpa using hmem)

/-! The override merge and the success path of the assembler. -/

theorem mergeOverrides_lookup (cfg : List (String × Val)) :
    ∀ (props : List (String × Val)) (k : String),
      lookupAssoc (mergeOverrides props cfg) k =
        if k ∈ SENZA_PROPERTIES then lookupAssoc props k
        else
          match lastVal cfg k with
          | some v => some v
          | none => lookupAssoc props k := by
  induction cfg with
  | nil =>
    intro props k
    by_cases hk : k ∈ SENZA_PROPERTIES <;> simp [mergeOverrides, lastVal, hk]
  | cons kv rest ih =>
    intro props k
    have hstep : mergeOverrides props (kv :: rest)
        = mergeOverrides
            (if kv.1 ∈ SENZA_PROPERTIES then props else insertAssoc props kv.1 kv.2) rest := by
      simp [mergeOverrides, List.foldl_cons]
    rw [hstep, ih, lastVal_cons]
    by_cases hk : k ∈ SENZA_PROPERTIES
    · rw [if_pos hk, if_pos hk]
      by_cases hkv : kv.1 ∈ SENZA_PROPERTIES
      · rw [if_pos hkv]
      · rw [if_neg hkv, lookupAssoc_insertAssoc]
        have : ¬ kv.1 = k := fun he => hkv (he ▸ hk)
        rw [if_neg this]
    · rw [if_neg hk, if_neg hk]
      rcases hrest : lastVal rest k with _ | w
      · by_cases hkv1 : kv.1 = k
        · have hkvS : ¬ kv.1 ∈ SENZA_PROPERTIES := fun hs => hk (hkv1 ▸ hs)
          rw [if_neg hkvS, lookupAssoc_insertAssoc, if_pos hkv1, if_pos hkv1]
        · rw [if_neg hkv1]
          by_cases hkv : kv.1 ∈ SENZA_PROPERTIES
          · rw [if_pos hkv]
          · rw [if_neg hkv, lookupAssoc_insertAssoc, if_neg hkv1]
      · rfl

theorem mem_keys_of_mem (l : List (String × Val)) (k : String) (v : Val)
    (hm : (k, v) ∈ l) : k ∈ l.map Prod.fst :=
  List.mem_map.mpr ⟨(k, v), hm, rfl⟩

/-- Membership and key-uniqueness survive the `NameSuffix` deletion, for every
entry that is not itself the deleted truthy `NameSuffix`. -/
theorem nameSuffixAdjust_mem_nodup (cfg : List (String × Val)) (k : String) (v : Val)
    (hnd : (cfg.map Prod.fst).Nodup) (hm : (k, v) ∈ cfg)
    (hns : k = "NameSuffix" → truthy v = false) :
    (k, v) ∈ nameSuffixAdjust cfg ∧ ((nameSuffixAdjust cfg).map Prod.fst).Nodup := by
  unfold nameSuffixAdjust
  rcases hlook : lookupAssoc cfg "NameSuffix" with _ | sv
  · exact ⟨hm, hnd⟩
  · dsimp only
    by_cases ht : truthy sv = true
    · rw [if_pos ht]
      have hkne : k ≠ "NameSuffix" := by
        intro hke
        have hlk : lookupAssoc cfg k = some v := lookupAssoc_of_mem_nodup cfg k v hnd hm
        rw [hke, hlook] at hlk
        injection hlk with hv
        rw [hv] at ht
        rw [hns hke] at ht
        cases ht
      exact ⟨mem_eraseAssoc cfg "NameSuffix" k v hkne hm,
             nodup_keys_eraseAssoc cfg "NameSuffix" hnd⟩
    · rw [if_neg ht]
      exact ⟨hm, hnd⟩

/-- Membership and key-uniqueness survive the `Scheme` default write-back. -/
theorem schemeAdjust_mem_nodup (cfg2 : List (String × Val)) (k : String) (v : Val)
    (hnd : (cfg2.map Prod.fst).Nodup) (hm : (k, v) ∈ cfg2) :
    (k, v) ∈ schemeAdjust cfg2 ∧ ((schemeAdjust cfg2).map Prod.fst).Nodup := by
  unfold schemeAdjust
  rcases hlook : lookupAssoc cfg2 "Scheme" with _ | sv
  · simp only [Option.isSome_none, Bool.false_eq_true, if_false]
    rw [insertAssoc_of_not_mem cfg2 "Scheme" (.str "internal") hlook]
    constructor
    · exact List.mem_append_left _ hm
    · rw [List.map_append, List.nodup_append]
      refine ⟨hnd, by simp, ?_⟩
      intro x hx hx2
      simp only [List.map_cons, List.map_nil, List.mem_singleton] at hx2
      rw [hx2] at hx
      exact (lookupAssoc_none_iff cfg2 "Scheme").1 hlook hx
  · simp only [Option.isSome_some, if_true]
    exact ⟨hm, hnd⟩

/-- Success inversion for `finishAssembly`: the produced document registers
the balancer under `lbName`, with the computed properties merged with the
(`NameSuffix`- and `Scheme`-adjusted) configuration overrides. -/
theorem finishAssembly_success_props (rsg : Val → String → Val) (lbName : String)
    (cfg : List (String × Val)) (ar sn sv : String) (st : LoopState) (lv : Val)
    (doc : List (String × Val)) (acts : List Action)
    (h : finishAssembly rsg lbName cfg ar sn sv st lv = (doc, acts, none)) :
    ∃ props0,
      finalProperties doc lbName
        = some (mergeOverrides props0 (schemeAdjust (nameSuffixAdjust cfg)))
      ∧ lookupAssoc props0 "Listeners" = some lv := by
  unfold finishAssembly at h
  split at h
  · rcases hport : lookupAssoc cfg "HTTPPort" with _ | httpPortVal
    · rw [hport] at h
      dsimp only at h
      injection h with h1 h2
      injection h2 with h2a h2b
      cases h2b
    · rw [hport] at h
      dsimp only at h
      split at h
      · rcases hsg : lookupAssoc (schemeAdjust (nameSuffixAdjust cfg)) "SecurityGroups"
          with _ | sgVal
        · rw [hsg] at h
          dsimp only at h
          injection h with h1 h2
          injection h2 with h2a h2b
          cases h2b
        · rw [hsg] at h
          dsimp only at h
          injection h with h1 h2
          refine ⟨computedProps (subnetMapOf (schemeOf (nameSuffixAdjust cfg)))
            (hcTargetOf cfg httpPortVal) lv
            (get_load_balancer_name sn (lbVersion cfg sv))
            (rsg sgVal ar) sn sv, ?_, ?_⟩
          · rw [← h1]
            unfold finalProperties
            rw [lookupAssoc_insertAssoc, if_pos rfl]
            rfl
          · rfl
      · injection h with h1 h2
        injection h2 with h2a h2b
        cases h2b
  · injection h with h1 h2
    injection h2 with h2a h2b
    cases h2b

/-- Success inversion for the component: the run decomposes into its stages. -/
theorem component_success_inv (env : Env) (res cfg : List (String × Val))
    (ar sn sv : String) (doc : List (String × Val)) (acts : List Action)
    (h : component_elastic_load_balancer env res cfg ar sn sv = (doc, acts, none)) :
    ∃ nameVal entries st lv,
      lookupAssoc cfg "Name" = some nameVal
      ∧ domainEntries cfg = some entries
      ∧ processDomains env.dns (pyStr nameVal) sn sv ⟨res, [], "", none⟩ entries = (st, none)
      ∧ listenersChoice env.certs env.region cfg st.subdomain st.mainZone = .ok lv
      ∧ finishAssembly env.resolveSecurityGroups (pyStr nameVal) cfg ar sn sv st lv
          = (doc, acts, none) := by
  unfold component_elastic_load_balancer at h
  rcases hname : lookupAssoc cfg "Name" with _ | nameVal
  · rw [hname] at h
    dsimp only at h
    injection h with h1 h2
    injection h2 with h2a h2b
    cases h2b
  · rw [hname] at h
    dsimp only at h
    rcases hent : domainEntries cfg with _ | entries
    · rw [hent] at h
      dsimp only at h
      injection h with h1 h2
      injection h2 with h2a h2b
      cases h2b
    · rw [hent] at h
      dsimp only at h
      rcases hd : processDomains env.dns (pyStr nameVal) sn sv ⟨res, [], "", none⟩ entries
        with ⟨st, e1⟩
      rw [hd] at h
      cases e1 with
      | some err =>
        dsimp only at h
        injection h with h1 h2
        injection h2 with h2a h2b
        cases h2b
      | none =>
        dsimp only at h
        rcases hlc : listenersChoice env.certs env.region cfg st.subdomain st.mainZone
          with e' | lv
        · rw [hlc] at h
          dsimp only at h
          injection h with h1 h2
          injection h2 with h2a h2b
          cases h2b
        · rw [hlc] at h
          dsimp only at h
          exact ⟨nameVal, entries, st, lv, rfl, rfl, hd, hlc, h⟩

theorem mem_of_lookupAssoc (l : List (String × α)) (k : String) (v : α)
    (h : lookupAssoc l k = some v) : (k, v) ∈ l := by
  induction l with
  | nil => simp [lookupAssoc] at h
  | cons p rest ih =>
    obtain ⟨pk, pv⟩ := p
    by_cases hk : pk = k
    · subst hk
      simp only [lookupAssoc, if_pos rfl] at h
      injection h with hv
      rw [← hv]
      exact List.mem_cons_self _ _
    · simp only [lookupAssoc, if_neg hk] at h
      exact List.mem_cons.2 (Or.inr (ih h))

theorem listenersChoice_truthy (cs : CertStores) (region : String)
    (cfg : List (String × Val)) (sub : String) (mz : Option String) (v : Val)
    (hl : lookupAssoc cfg "Listeners" = some v) (ht : truthy v = true) :
    listenersChoice cs region cfg sub mz = .ok v := by
  unfold listenersChoice
  rw [hl]
  dsimp only
  rw [if_pos ht]

/-- The final `Listeners` property of a successful run with a truthy
configured listener list and unique configuration keys. -/
theorem final_override_lookup (props0 cfg3 : List (String × Val)) (k : String) (v : Val)
    (hk : k ∉ SENZA_PROPERTIES) (hnd : (cfg3.map Prod.fst).Nodup) (hm : (k, v) ∈ cfg3) :
    lookupAssoc (mergeOverrides props0 cfg3) k = some v := by
  rw [mergeOverrides_lookup, if_neg hk, lastVal_of_mem_nodup cfg3 k v hnd hm]

/-- C8 amended: a *truthy* configured `Listeners` value is honored — it is
chosen verbatim without consulting the certificate stores (the whole run is
invariant under replacing them), and on success it is the value of the
emitted resource's `Listeners` property; a falsy `Listeners` entry (such as
the empty list configured explicitly) does *not* suppress the default
single-listener construction, whose certificate resolution runs (and can
abort the assembly). -/
theorem C8_listeners_override (c1 c2 : CertStores) (region : String) (dns : DnsEnv)
    (rsg : Val → String → Val) (res cfg : List (String × Val)) (ar sn sv : String)
    (v : Val) (hl : lookupAssoc cfg "Listeners" = some v) (ht : truthy v = true) :
    (∀ sub mz, listenersChoice c1 region cfg sub mz = .ok v)
    ∧ component_elastic_load_balancer ⟨c1, region, dns, rsg⟩ res cfg ar sn sv
        = component_elastic_load_balancer ⟨c2, region, dns, rsg⟩ res cfg ar sn sv
    ∧ (∀ doc acts nameVal, (cfg.map Prod.fst).Nodup →
        component_elastic_load_balancer ⟨c1, region, dns, rsg⟩ res cfg ar sn sv
          = (doc, acts, none) →
        lookupAssoc cfg "Name" = some nameVal →
        ∃ props, finalProperties doc (pyStr nameVal) = some props
          ∧ lookupAssoc props "Listeners" = some v) := by
  refine ⟨fun sub mz => listenersChoice_truthy c1 region cfg sub mz v hl ht, ?_, ?_⟩
  · unfold component_elastic_load_balancer
    dsimp only
    rcases lookupAssoc cfg "Name" with _ | nameVal
    · rfl
    · dsimp only
      rcases domainEntries cfg with _ | entries
      · rfl
      · dsimp only
        rcases processDomains dns (pyStr nameVal) sn sv ⟨res, [], "", none⟩ entries
          with ⟨st, e1⟩
        cases e1 with
        | some err => rfl
        | none =>
          dsimp only
          rw [listenersChoice_truthy c1 region cfg st.subdomain st.mainZone v hl ht,
              listenersChoice_truthy c2 region cfg st.subdomain st.mainZone v hl ht]
  · intro doc acts nameVal hnd h hname
    obtain ⟨nameVal', entries, st, lv, hname', hent, hd, hlc, hfin⟩ :=
      component_success_inv ⟨c1, region, dns, rsg⟩ res cfg ar sn sv doc acts h
    rw [hname] at hname'
    injection hname' with hnv
    rw [listenersChoice_truthy c1 region cfg st.subdomain st.mainZone v hl ht] at hlc
    injection hlc with hlv
    obtain ⟨props0, hprops, hplv⟩ := finishAssembly_success_props rsg (pyStr nameVal')
      cfg ar sn sv st lv doc acts hfin
    refine ⟨mergeOverrides props0 (schemeAdjust (nameSuffixAdjust cfg)), ?_, ?_⟩
    · rw [hnv]
      exact hprops
    · obtain ⟨hm2, hnd2⟩ := nameSuffixAdjust_mem_nodup cfg "Listeners" v hnd
        (mem_of_lookupAssoc cfg "Listeners" v hl)
        (fun hke => absurd hke (by decide))
      obtain ⟨hm3, hnd3⟩ := schemeAdjust_mem_nodup (nameSuffixAdjust cfg) "Listeners" v hnd2 hm2
      exact final_override_lookup props0 (schemeAdjust (nameSuffixAdjust cfg))
        "Listeners" v (by decide) hnd3 hm3

/-- A DNS store with no records and an operator that accepts everything. -/
def dns8 : DnsEnv :=
  { getRecords := fun _ => [], toAlias := fun r => r, confirm := fun _ _ _ => true }

def env8 : Env :=
  { certs := csEmpty, region := "eu", dns := dns8,
    resolveSecurityGroups := fun v _ => v }

/-- Configuration with an explicitly configured *empty* listener list and a
weighted domain binding. -/
def cfg8 : List (String × Val) :=
  [("Name", .str "LB"), ("Listeners", .arr []),
   ("Domains", .obj
     [("M", .obj [("Subdomain", .str "www"), ("Zone", .str "ex.org"),
                  ("Type", .str "weighted")])]),
   ("HTTPPort", .num 80), ("SecurityGroups", .arr [])]

/-- C8 counterexample: the configuration contains a `Listeners` entry (the
empty list), yet the default-listener construction *is* invoked — its
certificate resolution runs against the empty stores and aborts the whole
assembly with the certificate-not-found fatal error, so the configured list is
not placed into any emitted resource. -/
theorem C8_counterexample :
    lookupAssoc cfg8 "Listeners" = some (.arr [])
    ∧ component_elastic_load_balancer env8 [] cfg8 "r" "stack" "1"
        = ([("LBM", recordSetRes (weightedPropsFor "LB" "www.ex.org" "ex.org" "stack" "1"))],
           [], some (.fatal "Could not find any matching SSL certificate for \"www.ex.org\"")) :=
  ⟨rfl, rfl⟩

/-- Configuration with a truthy `Listeners` override, a truthy `NameSuffix`
and a free `Extra` key. -/
def cfg9 : List (String × Val) :=
  [("Name", .str "LB"), ("Listeners", .arr [.str "L"]), ("HTTPPort", .num 80),
   ("SecurityGroups", .arr []), ("NameSuffix", .str "x"), ("Extra", .str "v")]

/-- C8 witness: with the truthy listener list of `cfg9`, the choice is the
configured value verbatim, the run does not change when the certificate
stores are swapped out entirely, and the final `Listeners` property is the
configured list. -/
theorem C8_witness :
    listenersChoice csEmpty "eu" cfg9 "" none = .ok (.arr [.str "L"])
    ∧ component_elastic_load_balancer ⟨csEmpty, "eu", dns8, fun v _ => v⟩ [] cfg9 "r" "stack" "1"
        = component_elastic_load_balancer ⟨cs0, "eu", dns8, fun v _ => v⟩ [] cfg9 "r" "stack" "1"
    ∧ ∃ props,
        finalProperties
          (component_elastic_load_balancer ⟨csEmpty, "eu", dns8, fun v _ => v⟩
            [] cfg9 "r" "stack" "1").1 (pyStr (.str "LB")) = some props
        ∧ lookupAssoc props "Listeners" = some (.arr [.str "L"]) := by
  have h := C8_listeners_override csEmpty cs0 "eu" dns8 (fun v _ => v) [] cfg9
    "r" "stack" "1" (.arr [.str "L"]) rfl rfl
  refine ⟨h.1 "" none, h.2.1, ?_⟩
  exact h.2.2
    (component_elastic_load_balancer ⟨csEmpty, "eu", dns8, fun v _ => v⟩ [] cfg9
      "r" "stack" "1").1
    (component_elastic_load_balancer ⟨csEmpty, "eu", dns8, fun v _ => v⟩ [] cfg9
      "r" "stack" "1").2.1
    (.str "LB") (by decide) rfl rfl

/-- C9 counterexample: the run on `cfg9` succeeds, `NameSuffix` is a
configured key outside the reserved set, yet it does not appear among the
emitted properties (it is deleted before the merge) — while the free key
`Extra` does appear with its configured value. -/
theorem C9_counterexample :
    (component_elastic_load_balancer env8 [] cfg9 "r" "stack" "1").2.2 = none
    ∧ ("NameSuffix", Val.str "x") ∈ cfg9
    ∧ "NameSuffix" ∉ SENZA_PROPERTIES
    ∧ propOf (component_elastic_load_balancer env8 [] cfg9 "r" "stack" "1") "LB" "NameSuffix"
        = none
    ∧ propOf (component_elastic_load_balancer env8 [] cfg9 "r" "stack" "1") "LB" "Extra"
        = some (.str "v") := by
  refine ⟨rfl, ?_, by decide, rfl, rfl⟩
  simp [cfg9]

/-- C9 amended: after a successful assembly, every configured key outside the
reserved set — except a truthy `NameSuffix`, which is deleted before the merge
— appears in the emitted properties with exactly its configured value; and the
override merge never writes a reserved key, leaving reserved properties at
their computed values. -/
theorem C9_override_appears :
    (∀ (env : Env) (res cfg : List (String × Val)) (ar sn sv : String)
        (doc : List (String × Val)) (acts : List Action) (k : String) (v : Val)
        (nameVal : Val),
      (cfg.map Prod.fst).Nodup →
      component_elastic_load_balancer env res cfg ar sn sv = (doc, acts, none) →
      lookupAssoc cfg "Name" = some nameVal →
      (k, v) ∈ cfg → k ∉ SENZA_PROPERTIES → (k = "NameSuffix" → truthy v = false) →
      ∃ props, finalProperties doc (pyStr nameVal) = some props
        ∧ lookupAssoc props k = some v)
    ∧ (∀ (props cfg : List (String × Val)) (k : String), k ∈ SENZA_PROPERTIES →
        lookupAssoc (mergeOverrides props cfg) k = lookupAssoc props k) := by
  constructor
  · intro env res cfg ar sn sv doc acts k v nameVal hnd h hname hm hk hns
    obtain ⟨nameVal', entries, st, lv, hname', hent, hd, hlc, hfin⟩ :=
      component_success_inv env res cfg ar sn sv doc acts h
    rw [hname] at hname'
    injection hname' with hnv
    obtain ⟨props0, hprops, hplv⟩ := finishAssembly_success_props env.resolveSecurityGroups
      (pyStr nameVal') cfg ar sn sv st lv doc acts hfin
    obtain ⟨hm2, hnd2⟩ := nameSuffixAdjust_mem_nodup cfg k v hnd hm hns
    obtain ⟨hm3, hnd3⟩ := schemeAdjust_mem_nodup (nameSuffixAdjust cfg) k v hnd2 hm2
    refine ⟨mergeOverrides props0 (schemeAdjust (nameSuffixAdjust cfg)), ?_, ?_⟩
    · rw [hnv]
      exact hprops
    · exact final_override_lookup props0 (schemeAdjust (nameSuffixAdjust cfg)) k v hk hnd3 hm3
  · intro props cfg k hk
    rw [mergeOverrides_lookup, if_pos hk]

/-- C9 witness: applying the amended claim to the successful `cfg9` run for
the free key `Extra`, and the reserved-key part to a concrete merge. -/
theorem C9_witness :
    (∃ props,
      finalProperties (component_elastic_load_balancer env8 [] cfg9 "r" "stack" "1").1
          (pyStr (.str "LB")) = some props
      ∧ lookupAssoc props "Extra" = some (.str "v"))
    ∧ lookupAssoc
        (mergeOverrides [("HTTPPort", Val.num 1)] [("HTTPPort", Val.num 9)]) "HTTPPort"
        = lookupAssoc [("HTTPPort", Val.num 1)] "HTTPPort" := by
  constructor
  · refine C9_override_appears.1 env8 [] cfg9 "r" "stack" "1"
      (component_elastic_load_balancer env8 [] cfg9 "r" "stack" "1").1
      (component_elastic_load_balancer env8 [] cfg9 "r" "stack" "1").2.1
      "Extra" (.str "v") (.str "LB") (by decide) rfl rfl ?_ (by decide)
      (fun hke => absurd hke (by decide))
    simp [cfg9]
  · exact C9_override_appears.2 [("HTTPPort", Val.num 1)] [("HTTPPort", Val.num 9)]
      "HTTPPort" (by decide)

theorem processOneDomain_state (dns : DnsEnv) (lbName sn sv : String) (st : LoopState)
    (n : String) (fields : List (String × Val)) (st1 : LoopState)
    (h : processOneDomain dns lbName sn sv st n fields = (st1, none)) :
    (st1.subdomain, st1.mainZone) = weightedStep (st.subdomain, st.mainZone) fields := by
  unfold processOneDomain at h
  rcases hsd : lookupAssoc fields "Subdomain" with _ | sv0
  · rw [hsd] at h
    dsimp only at h
    injection h with h1 h2
    cases h2
  · rw [hsd] at h
    rcases hz : lookupAssoc fields "Zone" with _ | zv0
    · rw [hz] at h
      dsimp only at h
      injection h with h1 h2
      cases h2
    · rw [hz] at h
      dsimp only at h
      unfold processOneDomainCore at h
      rcases hpz : processZones dns (pyStr sv0 ++ "." ++ pyStr zv0) st.acts
          (convertedRecords dns (dns.getRecords (pyStr sv0 ++ "." ++ pyStr zv0)))
        with ⟨acts', e1⟩
      rw [hpz] at h
      cases e1 with
      | some e =>
        dsimp only at h
        injection h with h1 h2
        cases h2
      | none =>
        dsimp only at h
        rcases hty : lookupAssoc fields "Type" with _ | tv
        · rw [hty] at h
          dsimp only at h
          injection h with h1 h2
          cases h2
        · rw [hty] at h
          dsimp only at h
          unfold weightedStep
          rw [hty, hsd, hz]
          dsimp only
          by_cases hw : pyStr tv = "weighted"
          · rw [if_pos hw] at h
            rw [if_pos hw]
            injection h with h1 h2
            rw [← h1]
          · rw [if_neg hw] at h
            rw [if_neg hw]
            injection h with h1 h2
            rw [← h1]

/-- C10 corrected/amended: when no truthy `Listeners` entry is configured, the
default construction runs `get_listeners` on the `subdomain`/`main_zone` pair
left by the `Domains` loop — which is the *last* binding of type `weighted`
(or no domain at all when no weighted binding exists), not the first binding —
and every successful `get_listeners` call yields exactly one listener, with
`Protocol` HTTPS, `LoadBalancerPort` 443, `InstancePort` equal to the
configured `HTTPPort` value, and empty `PolicyNames`. -/
theorem C10_default_listener :
    (∀ (cs : CertStores) (region sub : String) (mz : Option String)
        (cfg : List (String × Val)) (L : List Val),
      get_listeners cs region sub mz cfg = .ok L →
      ∃ sslv port, lookupAssoc cfg "HTTPPort" = some port ∧ L = [mkListener sslv port])
    ∧ (∀ (dns : DnsEnv) (lbName sn sv : String) (st : LoopState)
        (entries : List (String × List (String × Val))) (st' : LoopState),
      processDomains dns lbName sn sv st entries = (st', none) →
      (st'.subdomain, st'.mainZone) = lastWeightedFrom (st.subdomain, st.mainZone) entries)
    ∧ (∀ (cs : CertStores) (region : String) (cfg : List (String × Val))
        (sub : String) (mz : Option String),
      lookupAssoc cfg "Listeners" = none →
      listenersChoice cs region cfg sub mz
        = (get_listeners cs region sub mz cfg).map Val.arr) := by
  refine ⟨?_, ?_, ?_⟩
  · intro cs region sub mz cfg L h
    unfold get_listeners at h
    dsimp only at h
    rcases hrc : resolveCert cs region sub mz
        ((lookupAssoc cfg "SSLCertificateId").getD .vnone) with e | sslv
    · rw [hrc] at h
      dsimp only at h
      cases h
    · rw [hrc] at h
      dsimp only at h
      rcases hport : lookupAssoc cfg "HTTPPort" with _ | port
      · rw [hport] at h
        dsimp only at h
        cases h
      · rw [hport] at h
        dsimp only at h
        injection h with hL
        exact ⟨sslv, port, rfl, hL.symm⟩
  · intro dns lbName sn sv st entries
    induction entries generalizing st with
    | nil =>
      intro st' h
      injection h with h1 h2
      rw [← h1]
      rfl
    | cons nf rest ih =>
      intro st' h
      obtain ⟨n, fields⟩ := nf
      unfold processDomains at h
      rcases hone : processOneDomain dns lbName sn sv st n fields with ⟨st1, e1⟩
      rw [hone] at h
      cases e1 with
      | some e =>
        dsimp only at h
        injection h with h1 h2
        cases h2
      | none =>
        dsimp only at h
        have hstep := processOneDomain_state dns lbName sn sv st n fields st1 hone
        have hrec := ih st1 st' h
        unfold lastWeightedFrom
        rw [← hstep]
        exact hrec
  · intro cs region cfg sub mz hlook
    unfold listenersChoice
    rw [hlook]

/-- Certificate stores whose ACM search answers differently for the two
weighted bindings' composed domains. -/
def cs10 : CertStores :=
  { csEmpty with acmGetCerts := fun n =>
      if n = "www2.z2" then [⟨"arn2", 1⟩]
      else if n = "www1.z1" then [⟨"arn1", 1⟩] else [] }

def env10 : Env :=
  { certs := cs10, region := "eu", dns := dns8,
    resolveSecurityGroups := fun v _ => v }

def fieldsD1 : List (String × Val) :=
  [("Subdomain", .str "www1"), ("Zone", .str "z1"), ("Type", .str "weighted")]

def fieldsD2 : List (String × Val) :=
  [("Subdomain", .str "www2"), ("Zone", .str "z2"), ("Type", .str "weighted")]

/-- Configuration with two weighted domain bindings and no listener override. -/
def cfg10 : List (String × Val) :=
  [("Name", .str "LB"),
   ("Domains", .obj [("A", .obj fieldsD1), ("B", .obj fieldsD2)]),
   ("HTTPPort", .num 80), ("SecurityGroups", .arr [])]

/-- C10 counterexample: with two weighted bindings, both of whose composed
domains have an ACM match, the emitted listener's certificate is the one of
the *last* binding (`www2.z2` → `arn2`), not the first binding's `arn1` as the
claim asserts. -/
theorem C10_counterexample :
    (component_elastic_load_balancer env10 [] cfg10 "r" "s" "1").2.2 = none
    ∧ cs10.acmGetCerts (composedName "www1" "z1") = [⟨"arn1", 1⟩]
    ∧ propOf (component_elastic_load_balancer env10 [] cfg10 "r" "s" "1") "LB" "Listeners"
        = some (.arr [mkListener (.str "arn2") (.num 80)])
    ∧ propOf (component_elastic_load_balancer env10 [] cfg10 "r" "s" "1") "LB" "Listeners"
        ≠ some (.arr [mkListener (.str "arn1") (.num 80)]) := by
  have h3 : propOf (component_elastic_load_balancer env10 [] cfg10 "r" "s" "1") "LB" "Listeners"
      = some (.arr [mkListener (.str "arn2") (.num 80)]) := rfl
  refine ⟨rfl, by decide, h3, ?_⟩
  intro heq
  rw [h3] at heq
  simp [mkListener] at heq

/-- C10 witness: the single-HTTPS-listener shape on a successful resolution,
the last-weighted-binding rule on the two-binding `Domains` list, and the
default choice of `get_listeners` when no `Listeners` entry is configured. -/
theorem C10_witness :
    (∃ sslv port,
      lookupAssoc [("HTTPPort", Val.num 80)] "HTTPPort" = some port
      ∧ [mkListener (.str "acm-arn") (.num 80)] = [mkListener sslv port])
    ∧ ((processDomains dns8 "LB" "s" "1" ⟨[], [], "", none⟩
          [("A", fieldsD1), ("B", fieldsD2)]).1.subdomain,
       (processDomains dns8 "LB" "s" "1" ⟨[], [], "", none⟩
          [("A", fieldsD1), ("B", fieldsD2)]).1.mainZone)
        = lastWeightedFrom ("", none) [("A", fieldsD1), ("B", fieldsD2)]
    ∧ listenersChoice cs0 "eu" [("HTTPPort", Val.num 80)] "www" (some "example.org")
        = (get_listeners cs0 "eu" "www" (some "example.org")
            [("HTTPPort", Val.num 80)]).map Val.arr := by
  refine ⟨?_, ?_, ?_⟩
  · exact C10_default_listener.1 cs0 "r" "www" (some "example.org")
      [("HTTPPort", Val.num 80)] [mkListener (.str "acm-arn") (.num 80)] rfl
  · exact C10_default_listener.2.1 dns8 "LB" "s" "1" ⟨[], [], "", none⟩
      [("A", fieldsD1), ("B", fieldsD2)]
      (processDomains dns8 "LB" "s" "1" ⟨[], [], "", none⟩
        [("A", fieldsD1), ("B", fieldsD2)]).1 rfl
  · exact C10_default_listener.2.2 cs0 "eu" [("HTTPPort", Val.num 80)] "www"
      (some "example.org") rfl

end Senza
